import Mathlib

/-!
Verification of the incremental SCSS build engine in
django_sass_finder/finders.py (class ScssFinder).

The embedding models:
  * filesystem paths as lists of path components (already resolved, absolute);
  * the filesystem as an association list from path to stat data
    (modification time and regular-file flag);
  * the two in-memory dictionaries of the finder (source_cache and
    files_cache) as association lists;
  * glob expansion as an opaque function from pattern to candidate list
    (the code re-checks stat data on every candidate, which we model);
  * sass.compile as an opaque success predicate on the source path
    (a False result models sass.CompileError being raised);
  * uncaught Python exceptions (ValueError from Path.relative_to and
    sass.CompileError) as an abort variant carrying the partial state.
-/

namespace SassFinder

/-- A filesystem path, as its list of components after resolution. -/
abbrev FsPath := List String

/-- Association-list lookup keyed by decidable equality (Python dict read). -/
def getA {α β : Type} [DecidableEq α] : List (α × β) → α → Option β
  | [], _ => none
  | (k, v) :: rest, k' => if k = k' then some v else getA rest k'

/-- Association-list write (Python dict item assignment: replace the
existing entry in place, otherwise append). -/
def setA {α β : Type} [DecidableEq α] : List (α × β) → α → β → List (α × β)
  | [], k, v => [(k, v)]
  | (k', v') :: rest, k, v =>
    if k' = k then (k, v) :: rest else (k', v') :: setA rest k v

/-- Association-list delete (Python dict del / Path.unlink in the model). -/
def delA {α β : Type} [DecidableEq α] : List (α × β) → α → List (α × β)
  | [], _ => []
  | (k', v') :: rest, k =>
    if k' = k then delA rest k else (k', v') :: delA rest k

/-- stat() result for one file: modification time and regular-file flag. -/
structure FStat where
  mtime : Int
  isReg : Bool
deriving DecidableEq, Repr

/-- The filesystem: association list from path to stat data.  A path absent
from the list does not exist (stat raises OSError). -/
abbrev FS := List (FsPath × FStat)

/-- The finder's configuration, from the Django settings read in __init__. -/
structure Conf where
  root : FsPath
  cssCompileDir : FsPath
  cssMap : Bool
  scssCompile : List String
deriving DecidableEq, Repr

/-- Python pathlib stem: drop the last dot-suffix of a name; a leading dot
or a trailing dot does not count as a suffix separator. -/
def stem (name : String) : String :=
  let cs := name.toList
  match ((cs.enum.filter (fun p => p.2 = '.')).map (fun p => p.1)).getLast? with
  | some i => if 0 < i ∧ i < cs.length - 1 then ⟨cs.take i⟩ else name
  | none => name

/-- Path.relative_to: succeeds exactly when root is a lexical ancestor. -/
def relTo (root p : FsPath) : Option FsPath :=
  if root.isPrefixOf p then some (p.drop root.length) else none

/-- Path.as_posix rendering of a relative path. -/
def posix (p : FsPath) : String := String.intercalate "/" p

/-- ScssFinder.output_path: css_compile_dir / (source relative to root).parent
/ (source stem + ".css").  Raises ValueError (modelled as none) when the
source is not a lexical descendant of the root. -/
def output_path (conf : Conf) (scssFile : FsPath) : Option FsPath :=
  match relTo conf.root scssFile with
  | none => none
  | some rel =>
    some (conf.cssCompileDir ++ rel.dropLast ++
      [stem ((scssFile.getLast?).getD "") ++ ".css"])

/-- The sibling .map path of an output path (outpath.parent / (stem + ".map")). -/
def mapPathOf (outpath : FsPath) : FsPath :=
  outpath.dropLast ++ [stem ((outpath.getLast?).getD "") ++ ".map"]

/-- The served-relative key of an output path:
outpath.relative_to(css_compile_dir).as_posix(). -/
def servedKey (conf : Conf) (outpath : FsPath) : String :=
  posix (outpath.drop conf.cssCompileDir.length)

/-- out_stat is not None and out_stat.st_mtime > cached_mtime. -/
def newerThan (s : Option FStat) (t : Int) : Bool :=
  match s with
  | none => false
  | some st => t < st.mtime

/-- An uncaught exception escaping compile_scss: ValueError from
Path.relative_to (source outside the root), or sass.CompileError. -/
inductive PassAbort where
  | outOfScope (src : FsPath)
  | compileError (src : FsPath)
deriving DecidableEq, Repr

/-- The source path an abort blames. -/
def PassAbort.src : PassAbort → FsPath
  | .outOfScope s => s
  | .compileError s => s

/-- Mutable state of the compile_scss loop: the local checked list, the two
finder dictionaries, the filesystem, plus an instrumentation list of the
sources on which sass.compile was invoked this pass. -/
structure LoopState where
  checked : List FsPath
  filesCache : List (String × FsPath)
  sourceCache : List (FsPath × Int)
  fs : FS
  compiled : List FsPath
deriving DecidableEq, Repr

/-- One iteration of the inner loop of compile_scss for one glob candidate.
Mirrors finders.py lines 112-160; an error result is an uncaught exception
carrying the state mutated so far. -/
def stepFile (conf : Conf) (compileOk : FsPath → Bool) (now : Int)
    (ls : LoopState) (scssFile : FsPath) :
    Except (PassAbort × LoopState) LoopState :=
  match getA ls.fs scssFile with
  | none => .ok ls
  | some st =>
    if st.isReg = false then .ok ls
    else
      let checked := ls.checked ++ [scssFile]
      match output_path conf scssFile with
      | none => .error (.outOfScope scssFile, { ls with checked := checked })
      | some outpath =>
        let mappath := mapPathOf outpath
        let filesCache := setA ls.filesCache (servedKey conf outpath) outpath
        let ls1 := { ls with checked := checked, filesCache := filesCache }
        if getA ls.sourceCache scssFile = some st.mtime then .ok ls1
        else
          let cachedMtime := st.mtime
          if newerThan (getA ls.fs outpath) cachedMtime &&
             (!conf.cssMap || newerThan (getA ls.fs mappath) cachedMtime) then
            .ok { ls1 with sourceCache := setA ls.sourceCache scssFile cachedMtime }
          else
            -- outpath.open('w+') creates/truncates the output before compiling
            let fs1 := setA ls.fs outpath ⟨now, true⟩
            if compileOk scssFile then
              .ok { ls1 with
                      fs := fs1
                      compiled := ls.compiled ++ [scssFile]
                      sourceCache := setA ls.sourceCache scssFile cachedMtime }
            else
              .error (.compileError scssFile, { ls1 with fs := fs1 })

/-- The compile loop over the concatenated glob results. -/
def runFiles (conf : Conf) (compileOk : FsPath → Bool) (now : Int)
    (ls : LoopState) : List FsPath → Except (PassAbort × LoopState) LoopState
  | [] => .ok ls
  | f :: rest =>
    match stepFile conf compileOk now ls f with
    | .ok ls' => runFiles conf compileOk now ls' rest
    | .error e => .error e

/-- The reconciliation loop of compile_scss (lines 165-171): delete the cache
entry, then derive the output path (may raise ValueError), then unlink it
best-effort (OSError swallowed; unlinkFails lists paths whose unlink fails). -/
def reconcile (conf : Conf) (unlinkFails : List FsPath) :
    List FsPath → List (FsPath × Int) × FS →
      Except (PassAbort × (List (FsPath × Int) × FS)) (List (FsPath × Int) × FS)
  | [], st => .ok st
  | src :: rest, (cache, fs) =>
    let cache1 := delA cache src
    match output_path conf src with
    | none => .error (.outOfScope src, (cache1, fs))
    | some outpath =>
      let fs1 := if outpath ∈ unlinkFails then fs else delA fs outpath
      reconcile conf unlinkFails rest (cache1, fs1)

/-- Result of one call to compile_scss: the finder dictionaries, the
filesystem, instrumentation (compiled and checked lists), and the uncaught
exception if one escaped. -/
structure PassOut where
  sourceCache : List (FsPath × Int)
  filesCache : List (String × FsPath)
  fs : FS
  compiled : List FsPath
  checked : List FsPath
  aborted : Option PassAbort
deriving DecidableEq, Repr

/-- The concatenated glob expansion of all configured patterns. -/
def foundOf (conf : Conf) (glob : String → List FsPath) : List FsPath :=
  conf.scssCompile.flatMap glob

/-- The removed list of the reconciliation step: cache keys absent from the
checked list, in cache order. -/
def removedOf (ls : LoopState) : List FsPath :=
  (ls.sourceCache.map Prod.fst).filter (fun s => s ∉ ls.checked)

/-- The reconciliation stage of compile_scss, packaging the loop state and
the reconcile result (or the uncaught exception) into the pass result. -/
def reconcilePass (conf : Conf) (unlinkFails : List FsPath) (ls : LoopState) :
    PassOut :=
  match reconcile conf unlinkFails (removedOf ls) (ls.sourceCache, ls.fs) with
  | .error (e, (c, f)) =>
    ⟨c, ls.filesCache, f, ls.compiled, ls.checked, some e⟩
  | .ok (c, f) =>
    ⟨c, ls.filesCache, f, ls.compiled, ls.checked, none⟩

/-- ScssFinder.compile_scss: clear files_cache, walk all glob candidates,
then reconcile the source cache against the checked list. -/
def runPass (conf : Conf) (glob : String → List FsPath) (compileOk : FsPath → Bool)
    (now : Int) (unlinkFails : List FsPath) (fs : FS)
    (sourceCache : List (FsPath × Int)) : PassOut :=
  match runFiles conf compileOk now ⟨[], [], sourceCache, fs, []⟩ (foundOf conf glob) with
  | .error (e, ls) =>
    ⟨ls.sourceCache, ls.filesCache, ls.fs, ls.compiled, ls.checked, some e⟩
  | .ok ls => reconcilePass conf unlinkFails ls

/-- The Django settings the finder reads.  A value of none for
cssServeStatic / cssCompileDir models the setting being absent. -/
structure Settings where
  scssCompile : List String
  scssRoot : FsPath
  cssCompileDir : Option FsPath
  cssMap : Bool
  cssServeStatic : Option Bool
  staticfilesDirs : List FsPath
  appStaticDirs : List FsPath
deriving DecidableEq, Repr

/-- ScssFinder._path_is_parent: css_compile_dir.relative_to(path) succeeds. -/
def pathIsParent (cssCompileDir p : FsPath) : Bool :=
  p.isPrefixOf cssCompileDir

/-- ScssFinder._path_in_staticfiles: if any STATICFILES_DIRS entry is an
ancestor of css_compile_dir, _serve_static becomes CSS_SERVE_STATIC
(default False); otherwise it is left unchanged. -/
def pathInStaticfiles (st : Settings) (cssDir : FsPath) (serve : Bool) : Bool :=
  if st.staticfilesDirs.any (fun d => pathIsParent cssDir d) then
    st.cssServeStatic.getD false
  else serve

/-- ScssFinder._path_in_appdirectories: run at most once, only when apps are
ready and _serve_static is still truthy; returns the new (_serve_static,
apps_static_checked) pair. -/
def pathInAppdirs (st : Settings) (cssDir : FsPath)
    (appsReady serve checked : Bool) : Bool × Bool :=
  if checked = false ∧ appsReady = true ∧ serve = true then
    (if st.appStaticDirs.any (fun d => pathIsParent cssDir d) then
       st.cssServeStatic.getD false
     else serve, true)
  else (serve, checked)

/-- The in-memory state of a ScssFinder instance. -/
structure Finder where
  settings : Settings
  conf : Conf
  serveStaticFlag : Bool
  appsStaticChecked : Bool
  sourceCache : List (FsPath × Int)
  filesCache : List (String × FsPath)
deriving DecidableEq, Repr

/-- ScssFinder.__init__ (appsReady is whether Django apps were ready then). -/
def mkFinder (st : Settings) (appsReady : Bool) : Finder :=
  let cssDir := st.cssCompileDir.getD st.scssRoot
  let conf : Conf := ⟨st.scssRoot, cssDir, st.cssMap, st.scssCompile⟩
  let serve1 := pathInStaticfiles st cssDir true
  let p := pathInAppdirs st cssDir appsReady serve1 false
  ⟨st, conf, p.1, p.2, [], []⟩

/-- The serve_static property: re-run the app-directories check, then read
the flag; returns the value and the updated finder. -/
def Finder.serveStatic (f : Finder) (appsReady : Bool) : Bool × Finder :=
  let p := pathInAppdirs f.settings f.conf.cssCompileDir appsReady
             f.serveStaticFlag f.appsStaticChecked
  (p.1, { f with serveStaticFlag := p.1, appsStaticChecked := p.2 })

/-- Return value of ScssFinder.find: a single path string (all=False, hit),
or a list (all=True hit, or the empty list for a miss). -/
inductive FindRet where
  | one (s : String)
  | many (l : List String)
deriving DecidableEq, Repr

/-- ScssFinder.find: run compile_scss, then consult serve_static and look the
requested path up in files_cache.  An abort is the uncaught exception, with
the mutated finder state and filesystem. -/
def Finder.find (f : Finder) (glob : String → List FsPath)
    (compileOk : FsPath → Bool) (now : Int) (unlinkFails : List FsPath)
    (appsReady : Bool) (fs : FS) (path : String) (all : Bool) :
    Except (PassAbort × Finder × FS) (FindRet × Finder × FS) :=
  let out := runPass f.conf glob compileOk now unlinkFails fs f.sourceCache
  let f1 := { f with sourceCache := out.sourceCache, filesCache := out.filesCache }
  match out.aborted with
  | some e => .error (e, f1, out.fs)
  | none =>
    let p := f1.serveStatic appsReady
    let f2 := p.2
    match (if p.1 then getA f2.filesCache path else none) with
    | some outpath =>
      .ok (if all then .many [posix outpath] else .one (posix outpath), f2, out.fs)
    | none => .ok (.many [], f2, out.fs)

/-- ScssFinder.list: run compile_scss, then yield every files_cache key when
serve_static holds (the storage handle is constant and omitted). -/
def Finder.listCss (f : Finder) (glob : String → List FsPath)
    (compileOk : FsPath → Bool) (now : Int) (unlinkFails : List FsPath)
    (appsReady : Bool) (fs : FS) :
    Except (PassAbort × Finder × FS) (List String × Finder × FS) :=
  let out := runPass f.conf glob compileOk now unlinkFails fs f.sourceCache
  let f1 := { f with sourceCache := out.sourceCache, filesCache := out.filesCache }
  match out.aborted with
  | some e => .error (e, f1, out.fs)
  | none =>
    let p := f1.serveStatic appsReady
    let f2 := p.2
    .ok (if p.1 then f2.filesCache.map Prod.fst else [], f2, out.fs)

/-- One entry of the list returned by ScssFinder.check (a django Error with
id 'sass.E001'; the message names the offending pattern). -/
structure CheckError where
  pattern : String
  errorId : String
deriving DecidableEq, Repr

/-- ScssFinder.check: one Error per configured glob pattern that matches no
file (the for/break/else loop over root.glob(scss_item)). -/
def checkLoop (glob : String → List FsPath) : List String → List CheckError
  | [] => []
  | item :: rest =>
    (match glob item with
     | [] => [⟨item, "sass.E001"⟩]
     | _ :: _ => []) ++ checkLoop glob rest

/-- ScssFinder.check over the finder's configured patterns. -/
def Finder.check (f : Finder) (glob : String → List FsPath) : List CheckError :=
  checkLoop glob f.conf.scssCompile

/-- Projection used to state results about Finder.find. -/
def findRetOf {ε : Type} (r : Except ε (FindRet × Finder × FS)) : Option FindRet :=
  match r with
  | .ok (x, _, _) => some x
  | .error _ => none

/-- The loop state reached by runFiles, whether or not it aborted. -/
def lsOf (r : Except (PassAbort × LoopState) LoopState) : LoopState :=
  match r with
  | .ok ls => ls
  | .error (_, ls) => ls

/-- The cache/filesystem pair reached by reconcile, aborted or not. -/
def prOf (r : Except (PassAbort × (List (FsPath × Int) × FS)) (List (FsPath × Int) × FS)) :
    List (FsPath × Int) × FS :=
  match r with
  | .ok p => p
  | .error (_, p) => p

/-- Specification fold: the checked list a completed loop produces, computed
against a fixed filesystem snapshot (valid when the loop never writes to a
globbed path). -/
def ckFold (fs0 : FS) (acc : List FsPath) : List FsPath → List FsPath
  | [] => acc
  | f :: rest =>
    match getA fs0 f with
    | some st => if st.isReg then ckFold fs0 (acc ++ [f]) rest else ckFold fs0 acc rest
    | none => ckFold fs0 acc rest

/-- Specification fold: the files_cache a completed loop produces, computed
against a fixed filesystem snapshot (valid under the same side condition). -/
def fcFold (conf : Conf) (fs0 : FS) (acc : List (String × FsPath)) :
    List FsPath → List (String × FsPath)
  | [] => acc
  | f :: rest =>
    match getA fs0 f, output_path conf f with
    | some st, some op =>
      if st.isReg then fcFold conf fs0 (setA acc (servedKey conf op) op) rest
      else fcFold conf fs0 acc rest
    | _, _ => fcFold conf fs0 acc rest

/-- The value of the serve_static property at query time (appsReady is
whether Django apps are ready at that access). -/
def Finder.serveStaticNow (f : Finder) (appsReady : Bool) : Bool :=
  (pathInAppdirs f.settings f.conf.cssCompileDir appsReady f.serveStaticFlag
    f.appsStaticChecked).1

/-- The ok payload of a call that did not raise. -/
def okOf {ε α : Type} (r : Except ε α) : Option α :=
  match r with
  | .ok a => some a
  | .error _ => none

namespace EX

def rootP : FsPath := ["r"]

def outP : FsPath := ["o"]

/-- Test configuration without source maps. -/
def conf1 : Conf := ⟨rootP, outP, false, ["*.scss"]⟩

/-- Test configuration with CSS_MAP = True. -/
def confM : Conf := ⟨rootP, outP, true, ["*.scss"]⟩

def srcA : FsPath := ["r", "a.scss"]

def srcB : FsPath := ["r", "b.scss"]

def outA : FsPath := ["o", "a.css"]

def outB : FsPath := ["o", "b.css"]

def mapA : FsPath := ["o", "a.map"]

/-- Glob expansion finding both sources. -/
def glob2 : String → List FsPath :=
  fun pat => if pat = "*.scss" then [srcA, srcB] else []

/-- Glob expansion finding only source a. -/
def glob1 : String → List FsPath :=
  fun pat => if pat = "*.scss" then [srcA] else []

/-- Glob expansion finding nothing. -/
def globNone : String → List FsPath := fun _ => []

/-- Compiler that always succeeds. -/
def okAll : FsPath → Bool := fun _ => true

/-- Compiler that raises CompileError on source a. -/
def failA : FsPath → Bool := fun p => if p = srcA then false else true

/-- Both sources on disk, no outputs yet. -/
def fs2 : FS := [(srcA, ⟨5, true⟩), (srcB, ⟨7, true⟩)]

/-- Both sources and both outputs on disk, outputs newer than the sources. -/
def fs2out : FS :=
  [(srcA, ⟨5, true⟩), (srcB, ⟨7, true⟩), (outA, ⟨100, true⟩), (outB, ⟨100, true⟩)]

/-- Source a regressed to mtime 3 while its output has mtime 100. -/
def fsRegress : FS :=
  [(srcA, ⟨3, true⟩), (srcB, ⟨7, true⟩), (outA, ⟨100, true⟩), (outB, ⟨100, true⟩)]

/-- Orphan state: source a is gone; its output and map file remain. -/
def fsOrphan : FS := [(outA, ⟨100, true⟩), (mapA, ⟨100, true⟩)]

/-- Source a touched (mtime 6) after its output was produced (mtime 5);
source b unchanged with its output up to date. -/
def fsTouched : FS :=
  [(srcA, ⟨6, true⟩), (srcB, ⟨7, true⟩), (outA, ⟨5, true⟩), (outB, ⟨100, true⟩)]

def mapB : FsPath := ["o", "b.map"]

/-- Source a present; source b deleted but its output and map remain. -/
def fs5 : FS := [(srcA, ⟨5, true⟩), (outB, ⟨50, true⟩), (mapB, ⟨50, true⟩)]

/-- Settings placing the output directory inside STATICFILES_DIRS, with
CSS_SERVE_STATIC absent. -/
def stGate : Settings := ⟨["*.scss"], rootP, some outP, false, none, [outP], []⟩

/-- Settings placing the output directory inside an app's static directory,
with CSS_SERVE_STATIC absent. -/
def stApp : Settings := ⟨["*.scss"], rootP, some outP, false, none, [], [outP]⟩

/-- Settings with the output directory outside every static directory. -/
def stFree : Settings :=
  ⟨["*.scss"], rootP, some outP, false, none, [["s"]], []⟩

end EX

section AssocLemmas

variable {α β : Type} [DecidableEq α]

theorem getA_setA_self (l : List (α × β)) (k : α) (v : β) :
    getA (setA l k v) k = some v := by
  induction l with
  | nil => simp [getA, setA]
  | cons kv rest ih =>
    by_cases h : kv.1 = k
    · simp [setA, getA, h]
    · simp [setA, getA, h, ih]

theorem getA_setA_ne (l : List (α × β)) (k k' : α) (v : β) (h : k' ≠ k) :
    getA (setA l k v) k' = getA l k' := by
  have h' : k ≠ k' := Ne.symm h
  induction l with
  | nil => simp [getA, setA, h']
  | cons kv rest ih =>
    obtain ⟨k0, v0⟩ := kv
    by_cases hk : k0 = k
    · subst hk
      simp [setA, getA, h']
    · simp [setA, getA, hk, ih]

theorem getA_delA_self (l : List (α × β)) (k : α) :
    getA (delA l k) k = none := by
  induction l with
  | nil => simp [getA, delA]
  | cons kv rest ih =>
    obtain ⟨k0, v0⟩ := kv
    by_cases h : k0 = k
    · simpa [delA, h] using ih
    · simp [delA, h, getA, ih]

theorem getA_delA_ne (l : List (α × β)) (k k' : α) (h : k' ≠ k) :
    getA (delA l k) k' = getA l k' := by
  induction l with
  | nil => simp [getA, delA]
  | cons kv rest ih =>
    obtain ⟨k0, v0⟩ := kv
    by_cases hk : k0 = k
    · subst hk
      simp [delA, getA, Ne.symm h, ih]
    · simp [delA, getA, hk, ih]

end AssocLemmas

section StepLemmas

variable {conf : Conf} {cOk : FsPath → Bool} {now : Int} {ls : LoopState}
  {f : FsPath} {st : FStat} {op : FsPath}

theorem stepFile_skip_none (h : getA ls.fs f = none) :
    stepFile conf cOk now ls f = .ok ls := by
  unfold stepFile
  rw [h]

theorem stepFile_skip_notReg (h : getA ls.fs f = some st) (hr : st.isReg = false) :
    stepFile conf cOk now ls f = .ok ls := by
  unfold stepFile
  rw [h]
  simp [hr]

theorem stepFile_outOfScope_eq (h : getA ls.fs f = some st) (hr : st.isReg = true)
    (ho : output_path conf f = none) :
    stepFile conf cOk now ls f =
      .error (.outOfScope f, { ls with checked := ls.checked ++ [f] }) := by
  unfold stepFile
  rw [h]
  simp [hr, ho]

theorem stepFile_fresh (h : getA ls.fs f = some st) (hr : st.isReg = true)
    (ho : output_path conf f = some op)
    (hc : getA ls.sourceCache f = some st.mtime) :
    stepFile conf cOk now ls f =
      .ok { ls with
              checked := ls.checked ++ [f]
              filesCache := setA ls.filesCache (servedKey conf op) op } := by
  unfold stepFile
  rw [h]
  simp [hr, ho, hc]

theorem stepFile_upToDate (h : getA ls.fs f = some st) (hr : st.isReg = true)
    (ho : output_path conf f = some op)
    (hc : ¬ getA ls.sourceCache f = some st.mtime)
    (hn : (newerThan (getA ls.fs op) st.mtime &&
           (!conf.cssMap || newerThan (getA ls.fs (mapPathOf op)) st.mtime)) = true) :
    stepFile conf cOk now ls f =
      .ok { ls with
              checked := ls.checked ++ [f]
              filesCache := setA ls.filesCache (servedKey conf op) op
              sourceCache := setA ls.sourceCache f st.mtime } := by
  unfold stepFile
  rw [h]
  simp [hr, ho, hc, hn]

theorem stepFile_compile (h : getA ls.fs f = some st) (hr : st.isReg = true)
    (ho : output_path conf f = some op)
    (hc : ¬ getA ls.sourceCache f = some st.mtime)
    (hn : (newerThan (getA ls.fs op) st.mtime &&
           (!conf.cssMap || newerThan (getA ls.fs (mapPathOf op)) st.mtime)) = false)
    (hco : cOk f = true) :
    stepFile conf cOk now ls f =
      .ok { ls with
              checked := ls.checked ++ [f]
              filesCache := setA ls.filesCache (servedKey conf op) op
              fs := setA ls.fs op ⟨now, true⟩
              compiled := ls.compiled ++ [f]
              sourceCache := setA ls.sourceCache f st.mtime } := by
  unfold stepFile
  rw [h]
  simp [hr, ho, hc, hn, hco]

theorem stepFile_compileFail (h : getA ls.fs f = some st) (hr : st.isReg = true)
    (ho : output_path conf f = some op)
    (hc : ¬ getA ls.sourceCache f = some st.mtime)
    (hn : (newerThan (getA ls.fs op) st.mtime &&
           (!conf.cssMap || newerThan (getA ls.fs (mapPathOf op)) st.mtime)) = false)
    (hco : cOk f = false) :
    stepFile conf cOk now ls f =
      .error (.compileError f,
        { ls with
            checked := ls.checked ++ [f]
            filesCache := setA ls.filesCache (servedKey conf op) op
            fs := setA ls.fs op ⟨now, true⟩ }) := by
  unfold stepFile
  rw [h]
  simp [hr, ho, hc, hn, hco]

/-- Inversion for a loop iteration that did not raise: either the candidate
was skipped (stat missing or not a regular file), or it was processed — put
on the checked list, registered in files_cache, and left with a cache entry
equal to its current modification time — touching no other cache key and no
filesystem path other than its own output. -/
theorem stepFile_inv {conf : Conf} {cOk : FsPath → Bool} {now : Int}
    {ls ls' : LoopState} {f : FsPath}
    (h : stepFile conf cOk now ls f = .ok ls') :
    (ls' = ls ∧ (getA ls.fs f = none ∨ ∃ st, getA ls.fs f = some st ∧ st.isReg = false)) ∨
    (∃ st op, getA ls.fs f = some st ∧ st.isReg = true ∧
      output_path conf f = some op ∧
      ls'.checked = ls.checked ++ [f] ∧
      ls'.filesCache = setA ls.filesCache (servedKey conf op) op ∧
      getA ls'.sourceCache f = some st.mtime ∧
      (∀ k, k ≠ f → getA ls'.sourceCache k = getA ls.sourceCache k) ∧
      (∀ p, p ≠ op → getA ls'.fs p = getA ls.fs p) ∧
      (ls'.compiled = ls.compiled ∨ ls'.compiled = ls.compiled ++ [f]) ∧
      (getA ls.sourceCache f = some st.mtime → ls'.compiled = ls.compiled)) := by
  cases hst : getA ls.fs f with
  | none =>
    rw [stepFile_skip_none hst] at h
    cases h
    exact Or.inl ⟨rfl, Or.inl rfl⟩
  | some st =>
    cases hr : st.isReg with
    | false =>
      rw [stepFile_skip_notReg hst hr] at h
      cases h
      exact Or.inl ⟨rfl, Or.inr ⟨st, rfl, hr⟩⟩
    | true =>
      cases ho : output_path conf f with
      | none =>
        rw [stepFile_outOfScope_eq hst hr ho] at h
        cases h
      | some op =>
        by_cases hc : getA ls.sourceCache f = some st.mtime
        · rw [stepFile_fresh hst hr ho hc] at h
          cases h
          exact Or.inr ⟨st, op, rfl, hr, rfl, rfl, rfl, hc,
            fun k _ => rfl, fun p _ => rfl, Or.inl rfl, fun _ => rfl⟩
        · cases hn : (newerThan (getA ls.fs op) st.mtime &&
              (!conf.cssMap || newerThan (getA ls.fs (mapPathOf op)) st.mtime)) with
          | true =>
            rw [stepFile_upToDate hst hr ho hc hn] at h
            cases h
            exact Or.inr ⟨st, op, rfl, hr, rfl, rfl, rfl,
              getA_setA_self ls.sourceCache f st.mtime,
              fun k hk => getA_setA_ne ls.sourceCache f k st.mtime hk,
              fun p _ => rfl, Or.inl rfl, fun hcon => absurd hcon hc⟩
          | false =>
            cases hco : cOk f with
            | false =>
              rw [stepFile_compileFail hst hr ho hc hn hco] at h
              cases h
            | true =>
              rw [stepFile_compile hst hr ho hc hn hco] at h
              cases h
              exact Or.inr ⟨st, op, rfl, hr, rfl, rfl, rfl,
                getA_setA_self ls.sourceCache f st.mtime,
                fun k hk => getA_setA_ne ls.sourceCache f k st.mtime hk,
                fun p hp => getA_setA_ne ls.fs op p ⟨now, true⟩ hp,
                Or.inr rfl, fun hcon => absurd hcon hc⟩

/-- Inversion for a loop iteration that raised: the candidate was a regular
file, it had already been appended to checked, the source cache and the
compiled list are untouched, and the exception is either the ValueError for
a source outside the root (filesystem untouched) or a CompileError (output
file already truncated by open('w+')). -/
theorem stepFile_err_inv {conf : Conf} {cOk : FsPath → Bool} {now : Int}
    {ls ls' : LoopState} {f : FsPath} {ab : PassAbort}
    (h : stepFile conf cOk now ls f = .error (ab, ls')) :
    ∃ st, getA ls.fs f = some st ∧ st.isReg = true ∧ ab.src = f ∧
      ls'.checked = ls.checked ++ [f] ∧
      ls'.sourceCache = ls.sourceCache ∧
      ls'.compiled = ls.compiled ∧
      ((ab = .outOfScope f ∧ output_path conf f = none ∧
          ls'.filesCache = ls.filesCache ∧ ls'.fs = ls.fs) ∨
       (∃ op, ab = .compileError f ∧ output_path conf f = some op ∧ cOk f = false ∧
          ls'.filesCache = setA ls.filesCache (servedKey conf op) op ∧
          ls'.fs = setA ls.fs op ⟨now, true⟩ ∧
          ¬ getA ls.sourceCache f = some st.mtime)) := by
  cases hst : getA ls.fs f with
  | none =>
    rw [stepFile_skip_none hst] at h
    cases h
  | some st =>
    cases hr : st.isReg with
    | false =>
      rw [stepFile_skip_notReg hst hr] at h
      cases h
    | true =>
      cases ho : output_path conf f with
      | none =>
        rw [stepFile_outOfScope_eq hst hr ho] at h
        cases h
        exact ⟨st, rfl, hr, rfl, rfl, rfl, rfl, Or.inl ⟨rfl, rfl, rfl, rfl⟩⟩
      | some op =>
        by_cases hc : getA ls.sourceCache f = some st.mtime
        · rw [stepFile_fresh hst hr ho hc] at h
          cases h
        · cases hn : (newerThan (getA ls.fs op) st.mtime &&
              (!conf.cssMap || newerThan (getA ls.fs (mapPathOf op)) st.mtime)) with
          | true =>
            rw [stepFile_upToDate hst hr ho hc hn] at h
            cases h
          | false =>
            cases hco : cOk f with
            | true =>
              rw [stepFile_compile hst hr ho hc hn hco] at h
              cases h
            | false =>
              rw [stepFile_compileFail hst hr ho hc hn hco] at h
              cases h
              exact ⟨st, rfl, hr, rfl, rfl, rfl, rfl,
                Or.inr ⟨op, rfl, rfl, rfl, rfl, rfl, hc⟩⟩

end StepLemmas

section RunLemmas

variable {conf : Conf} {cOk : FsPath → Bool} {now : Int}

theorem runFiles_nil {ls : LoopState} : runFiles conf cOk now ls [] = .ok ls := rfl

theorem runFiles_cons {ls : LoopState} {f : FsPath} {rest : List FsPath} :
    runFiles conf cOk now ls (f :: rest) =
      match stepFile conf cOk now ls f with
      | .ok ls' => runFiles conf cOk now ls' rest
      | .error e => .error e := rfl

theorem runFiles_checked_mono (files : List FsPath) :
    ∀ (ls : LoopState) (x : FsPath), x ∈ ls.checked →
      x ∈ (lsOf (runFiles conf cOk now ls files)).checked := by
  induction files with
  | nil => intro ls x h; simpa [runFiles_nil, lsOf] using h
  | cons f rest ih =>
    intro ls x h
    rw [runFiles_cons]
    cases hs : stepFile conf cOk now ls f with
    | ok ls1 =>
      rcases stepFile_inv hs with ⟨heq, _⟩ | ⟨st, op, _, _, _, hch, _⟩
      · exact ih ls1 x (heq ▸ h)
      · exact ih ls1 x (hch ▸ List.mem_append_left _ h)
    | error e =>
      obtain ⟨ab, ls1⟩ := e
      obtain ⟨st, _, _, _, hch, _⟩ := stepFile_err_inv hs
      simpa [lsOf, hch] using Or.inl h

theorem runFiles_compiled_mono (files : List FsPath) :
    ∀ (ls : LoopState) (x : FsPath), x ∈ ls.compiled →
      x ∈ (lsOf (runFiles conf cOk now ls files)).compiled := by
  induction files with
  | nil => intro ls x h; simpa [runFiles_nil, lsOf] using h
  | cons f rest ih =>
    intro ls x h
    rw [runFiles_cons]
    cases hs : stepFile conf cOk now ls f with
    | ok ls1 =>
      rcases stepFile_inv hs with ⟨heq, _⟩ | ⟨st, op, _, _, _, _, _, _, _, _, hcp, _⟩
      · exact ih ls1 x (heq ▸ h)
      · rcases hcp with hcp | hcp
        · exact ih ls1 x (hcp ▸ h)
        · exact ih ls1 x (hcp ▸ List.mem_append_left _ h)
    | error e =>
      obtain ⟨ab, ls1⟩ := e
      obtain ⟨st, _, _, _, _, _, hcp, _⟩ := stepFile_err_inv hs
      simpa [lsOf, hcp] using h

theorem runFiles_checked_sub (files : List FsPath) :
    ∀ (ls : LoopState) (x : FsPath),
      x ∈ (lsOf (runFiles conf cOk now ls files)).checked →
      x ∈ ls.checked ∨ x ∈ files := by
  induction files with
  | nil => intro ls x h; exact Or.inl (by simpa [runFiles_nil, lsOf] using h)
  | cons f rest ih =>
    intro ls x h
    rw [runFiles_cons] at h
    cases hs : stepFile conf cOk now ls f with
    | ok ls1 =>
      rw [hs] at h
      rcases ih ls1 x h with hx | hx
      · rcases stepFile_inv hs with ⟨heq, _⟩ | ⟨st, op, _, _, _, hch, _⟩
        · exact Or.inl (heq ▸ hx)
        · rw [hch] at hx
          rcases List.mem_append.mp hx with hx | hx
          · exact Or.inl hx
          · exact Or.inr (by simpa using Or.inl (List.mem_singleton.mp hx))
      · exact Or.inr (List.mem_cons_of_mem _ hx)
    | error e =>
      obtain ⟨ab, ls1⟩ := e
      rw [hs] at h
      obtain ⟨st, _, _, _, hch, _⟩ := stepFile_err_inv hs
      simp only [lsOf, hch] at h
      rcases List.mem_append.mp h with hx | hx
      · exact Or.inl hx
      · exact Or.inr (by simpa using Or.inl (List.mem_singleton.mp hx))

theorem runFiles_compiled_sub (files : List FsPath) :
    ∀ (ls : LoopState) (x : FsPath),
      x ∈ (lsOf (runFiles conf cOk now ls files)).compiled →
      x ∈ ls.compiled ∨ x ∈ files := by
  induction files with
  | nil => intro ls x h; exact Or.inl (by simpa [runFiles_nil, lsOf] using h)
  | cons f rest ih =>
    intro ls x h
    rw [runFiles_cons] at h
    cases hs : stepFile conf cOk now ls f with
    | ok ls1 =>
      rw [hs] at h
      rcases ih ls1 x h with hx | hx
      · rcases stepFile_inv hs with ⟨heq, _⟩ | ⟨st, op, _, _, _, _, _, _, _, _, hcp, _⟩
        · exact Or.inl (heq ▸ hx)
        · rcases hcp with hcp | hcp
          · exact Or.inl (hcp ▸ hx)
          · rw [hcp] at hx
            rcases List.mem_append.mp hx with hx | hx
            · exact Or.inl hx
            · exact Or.inr (by simpa using Or.inl (List.mem_singleton.mp hx))
      · exact Or.inr (List.mem_cons_of_mem _ hx)
    | error e =>
      obtain ⟨ab, ls1⟩ := e
      rw [hs] at h
      obtain ⟨st, _, _, _, _, _, hcp, _⟩ := stepFile_err_inv hs
      simp only [lsOf, hcp] at h
      exact Or.inl h

theorem runFiles_cache_frame (files : List FsPath) :
    ∀ (ls : LoopState) (k : FsPath), k ∉ files →
      getA (lsOf (runFiles conf cOk now ls files)).sourceCache k =
        getA ls.sourceCache k := by
  induction files with
  | nil => intro ls k _; simp [runFiles_nil, lsOf]
  | cons f rest ih =>
    intro ls k hk
    have hkf : k ≠ f := fun h => hk (h ▸ List.mem_cons_self f rest)
    have hkr : k ∉ rest := fun h => hk (List.mem_cons_of_mem _ h)
    rw [runFiles_cons]
    cases hs : stepFile conf cOk now ls f with
    | ok ls1 =>
      rcases stepFile_inv hs with ⟨heq, _⟩ | ⟨st, op, _, _, _, _, _, _, hsc, _⟩
      · rw [ih ls1 k hkr, heq]
      · rw [ih ls1 k hkr, hsc k hkf]
    | error e =>
      obtain ⟨ab, ls1⟩ := e
      obtain ⟨st, _, _, _, _, hscc, _⟩ := stepFile_err_inv hs
      simp [lsOf, hscc]

theorem runFiles_fs_frame (files : List FsPath) :
    ∀ (ls : LoopState) (p : FsPath),
      (∀ t ∈ files, output_path conf t ≠ some p) →
      getA (lsOf (runFiles conf cOk now ls files)).fs p = getA ls.fs p := by
  induction files with
  | nil => intro ls p _; simp [runFiles_nil, lsOf]
  | cons f rest ih =>
    intro ls p hp
    have hpf : output_path conf f ≠ some p := hp f (List.mem_cons_self f rest)
    have hpr : ∀ t ∈ rest, output_path conf t ≠ some p :=
      fun t ht => hp t (List.mem_cons_of_mem _ ht)
    rw [runFiles_cons]
    cases hs : stepFile conf cOk now ls f with
    | ok ls1 =>
      rcases stepFile_inv hs with ⟨heq, _⟩ | ⟨st, op, _, _, hop, _, _, _, _, hfs, _⟩
      · rw [ih ls1 p hpr, heq]
      · have hne : p ≠ op := fun h => hpf (h ▸ hop)
        rw [ih ls1 p hpr, hfs p hne]
    | error e =>
      obtain ⟨ab, ls1⟩ := e
      obtain ⟨st, _, _, _, _, _, _, herr⟩ := stepFile_err_inv hs
      rcases herr with ⟨_, _, _, hfs⟩ | ⟨op, _, hop, _, _, hfs, _⟩
      · simp [lsOf, hfs]
      · have hne : op ≠ p := fun h => hpf (h ▸ hop)
        simp [lsOf, hfs, getA_setA_ne ls.fs op p ⟨now, true⟩ (Ne.symm hne)]

theorem runFiles_cache_isSome_mono (files : List FsPath) :
    ∀ (ls : LoopState) (k : FsPath),
      (getA ls.sourceCache k).isSome →
      (getA (lsOf (runFiles conf cOk now ls files)).sourceCache k).isSome := by
  induction files with
  | nil => intro ls k h; simpa [runFiles_nil, lsOf] using h
  | cons f rest ih =>
    intro ls k h
    rw [runFiles_cons]
    cases hs : stepFile conf cOk now ls f with
    | ok ls1 =>
      rcases stepFile_inv hs with ⟨heq, _⟩ | ⟨st, op, _, _, _, _, _, hself, hsc, _⟩
      · exact ih ls1 k (heq ▸ h)
      · by_cases hkf : k = f
        · exact ih ls1 k (by rw [hkf, hself]; rfl)
        · exact ih ls1 k (by rwa [hsc k hkf])
    | error e =>
      obtain ⟨ab, ls1⟩ := e
      obtain ⟨st, _, _, _, _, hscc, _⟩ := stepFile_err_inv hs
      simpa [lsOf, hscc] using h

/-- A source that is skipped or fresh at the start of the loop — stat
missing, not a regular file, or cache entry equal to its current
modification time — is never recompiled: its stat, its cache entry and the
compiled list are untouched, provided no processed candidate's output path
collides with it; additionally any path op2 that only this source's
processing could write stays untouched. -/
theorem runFiles_inert (files : List FsPath) :
    ∀ (ls : LoopState) (s op2 : FsPath),
      (∀ t ∈ files, output_path conf t ≠ some s) →
      (∀ t ∈ files, t ≠ s → output_path conf t ≠ some op2) →
      (getA ls.fs s = none ∨
        (∃ st, getA ls.fs s = some st ∧
          (st.isReg = false ∨ getA ls.sourceCache s = some st.mtime))) →
      (getA (lsOf (runFiles conf cOk now ls files)).fs s = getA ls.fs s ∧
       getA (lsOf (runFiles conf cOk now ls files)).sourceCache s =
         getA ls.sourceCache s ∧
       getA (lsOf (runFiles conf cOk now ls files)).fs op2 = getA ls.fs op2 ∧
       (s ∉ ls.compiled →
        s ∉ (lsOf (runFiles conf cOk now ls files)).compiled)) := by
  induction files with
  | nil => intro ls s op2 _ _ _; simp [runFiles_nil, lsOf]
  | cons f rest ih =>
    intro ls s op2 hW hC hinert
    have hWf := hW f (List.mem_cons_self f rest)
    have hWr : ∀ t ∈ rest, output_path conf t ≠ some s :=
      fun t ht => hW t (List.mem_cons_of_mem _ ht)
    have hCr : ∀ t ∈ rest, t ≠ s → output_path conf t ≠ some op2 :=
      fun t ht => hC t (List.mem_cons_of_mem _ ht)
    rw [runFiles_cons]
    by_cases hfs : f = s
    · -- the step is on s itself: it is skipped or taken as fresh
      subst hfs
      rcases hinert with hnone | ⟨st, hst, hskip⟩
      · rw [stepFile_skip_none hnone]
        exact ih ls f op2 hWr hCr (Or.inl hnone)
      · cases hbool : st.isReg with
        | false =>
          rw [stepFile_skip_notReg hst hbool]
          exact ih ls f op2 hWr hCr (Or.inr ⟨st, hst, Or.inl hbool⟩)
        | true =>
          have hcache : getA ls.sourceCache f = some st.mtime := by
            rcases hskip with hskip | hskip
            · rw [hskip] at hbool; cases hbool
            · exact hskip
          cases ho : output_path conf f with
          | none =>
            rw [stepFile_outOfScope_eq hst hbool ho]
            simp [lsOf]
          | some op =>
            rw [stepFile_fresh hst hbool ho hcache]
            exact ih _ f op2 hWr hCr (Or.inr ⟨st, hst, Or.inr hcache⟩)
    · -- the step is on some other candidate
      cases hs : stepFile conf cOk now ls f with
      | ok ls1 =>
        rcases stepFile_inv hs with ⟨heq, _⟩ | ⟨st, op, _, _, hop, _, _, _, hsc, hfsf, hcp, _⟩
        · subst heq
          exact ih _ s op2 hWr hCr hinert
        · have hops : op ≠ s := fun h => hWf (h ▸ hop)
          have hopo : op ≠ op2 := fun h => (hC f (List.mem_cons_self f rest) hfs) (h ▸ hop)
          have h1 : getA ls1.fs s = getA ls.fs s := hfsf s (Ne.symm hops)
          have h2 : getA ls1.sourceCache s = getA ls.sourceCache s :=
            hsc s (fun h => hfs (h.symm))
          have h3 : getA ls1.fs op2 = getA ls.fs op2 := hfsf op2 (Ne.symm hopo)
          have hinert1 : getA ls1.fs s = none ∨
              (∃ st2, getA ls1.fs s = some st2 ∧
                (st2.isReg = false ∨ getA ls1.sourceCache s = some st2.mtime)) := by
            rcases hinert with hnone | ⟨st2, hst2, hsk⟩
            · exact Or.inl (h1 ▸ hnone)
            · refine Or.inr ⟨st2, h1 ▸ hst2, ?_⟩
              rcases hsk with hsk | hsk
              · exact Or.inl hsk
              · exact Or.inr (h2 ▸ hsk)
          obtain ⟨g1, g2, g3, g4⟩ := ih ls1 s op2 hWr hCr hinert1
          refine ⟨g1.trans h1, g2.trans h2, g3.trans h3, fun hnc => ?_⟩
          apply g4
          rcases hcp with hcp | hcp
          · rw [hcp]; exact hnc
          · rw [hcp]
            intro hmem
            rcases List.mem_append.mp hmem with hmem | hmem
            · exact hnc hmem
            · exact hfs (List.mem_singleton.mp hmem).symm
      | error e =>
        obtain ⟨ab, ls1⟩ := e
        obtain ⟨st, _, _, _, _, hscc, hcpc, herr⟩ := stepFile_err_inv hs
        rcases herr with ⟨_, _, _, hfsc⟩ | ⟨op, _, hop, _, _, hfsc, _⟩
        · simp [lsOf, hfsc, hscc, hcpc]
        · have hops : op ≠ s := fun h => hWf (h ▸ hop)
          have hopo : op ≠ op2 := fun h => (hC f (List.mem_cons_self f rest) hfs) (h ▸ hop)
          simp [lsOf, hfsc, hscc, hcpc,
            getA_setA_ne ls.fs op s ⟨now, true⟩ (Ne.symm hops),
            getA_setA_ne ls.fs op op2 ⟨now, true⟩ (Ne.symm hopo)]

theorem runFiles_append_ok {xs ys : List FsPath} :
    ∀ (ls ls' : LoopState),
      runFiles conf cOk now ls (xs ++ ys) = .ok ls' →
      ∃ lsm, runFiles conf cOk now ls xs = .ok lsm ∧
        runFiles conf cOk now lsm ys = .ok ls' := by
  induction xs with
  | nil => intro ls ls' h; exact ⟨ls, rfl, h⟩
  | cons f rest ih =>
    intro ls ls' h
    rw [List.cons_append, runFiles_cons] at h
    cases hs : stepFile conf cOk now ls f with
    | ok ls1 =>
      rw [hs] at h
      obtain ⟨lsm, h1, h2⟩ := ih ls1 ls' h
      exact ⟨lsm, by rw [runFiles_cons, hs]; exact h1, h2⟩
    | error e =>
      rw [hs] at h
      cases h

theorem runFiles_err_decomp {ab : PassAbort} :
    ∀ (files : List FsPath) (ls ls' : LoopState),
      runFiles conf cOk now ls files = .error (ab, ls') →
      ∃ pre f post lsm, files = pre ++ f :: post ∧
        runFiles conf cOk now ls pre = .ok lsm ∧
        stepFile conf cOk now lsm f = .error (ab, ls') := by
  intro files
  induction files with
  | nil => intro ls ls' h; cases h
  | cons f rest ih =>
    intro ls ls' h
    rw [runFiles_cons] at h
    cases hs : stepFile conf cOk now ls f with
    | ok ls1 =>
      rw [hs] at h
      obtain ⟨pre, g, post, lsm, hsplit, h1, h2⟩ := ih ls1 ls' h
      exact ⟨f :: pre, g, post, lsm, by simp [hsplit],
        by rw [runFiles_cons, hs]; exact h1, h2⟩
    | error e =>
      rw [hs] at h
      cases h
      exact ⟨[], f, rest, ls, rfl, rfl, hs⟩

theorem runFiles_cons_step {ls ls1 : LoopState} {f : FsPath} {rest : List FsPath}
    (hs : stepFile conf cOk now ls f = .ok ls1) :
    runFiles conf cOk now ls (f :: rest) = runFiles conf cOk now ls1 rest := by
  rw [runFiles_cons, hs]

theorem ckFold_cons_none {fs0 : FS} {f : FsPath} {acc : List FsPath}
    {rest : List FsPath} (h : getA fs0 f = none) :
    ckFold fs0 acc (f :: rest) = ckFold fs0 acc rest := by
  simp [ckFold, h]

theorem ckFold_cons_notReg {fs0 : FS} {f : FsPath} {st : FStat}
    {acc rest : List FsPath} (h : getA fs0 f = some st) (hr : st.isReg = false) :
    ckFold fs0 acc (f :: rest) = ckFold fs0 acc rest := by
  simp [ckFold, h, hr]

theorem ckFold_cons_reg {fs0 : FS} {f : FsPath} {st : FStat}
    {acc rest : List FsPath} (h : getA fs0 f = some st) (hr : st.isReg = true) :
    ckFold fs0 acc (f :: rest) = ckFold fs0 (acc ++ [f]) rest := by
  simp [ckFold, h, hr]

theorem fcFold_cons_none {conf : Conf} {fs0 : FS} {f : FsPath}
    {acc : List (String × FsPath)} {rest : List FsPath} (h : getA fs0 f = none) :
    fcFold conf fs0 acc (f :: rest) = fcFold conf fs0 acc rest := by
  simp [fcFold, h]

theorem fcFold_cons_notReg {conf : Conf} {fs0 : FS} {f : FsPath} {st : FStat}
    {acc : List (String × FsPath)} {rest : List FsPath}
    (h : getA fs0 f = some st) (hr : st.isReg = false) :
    fcFold conf fs0 acc (f :: rest) = fcFold conf fs0 acc rest := by
  cases ho : output_path conf f <;> simp [fcFold, h, hr, ho]

theorem fcFold_cons_reg {conf : Conf} {fs0 : FS} {f op : FsPath} {st : FStat}
    {acc : List (String × FsPath)} {rest : List FsPath}
    (h : getA fs0 f = some st) (hr : st.isReg = true)
    (ho : output_path conf f = some op) :
    fcFold conf fs0 acc (f :: rest) =
      fcFold conf fs0 (setA acc (servedKey conf op) op) rest := by
  simp [fcFold, h, hr, ho]

theorem ckFold_acc_mono (fs0 : FS) :
    ∀ (files : List FsPath) (acc : List FsPath) (x : FsPath),
      x ∈ acc → x ∈ ckFold fs0 acc files := by
  intro files
  induction files with
  | nil => intro acc x h; simpa [ckFold] using h
  | cons f rest ih =>
    intro acc x h
    cases h0 : getA fs0 f with
    | none =>
      rw [ckFold_cons_none h0]
      exact ih acc x h
    | some st =>
      cases hr : st.isReg with
      | false =>
        rw [ckFold_cons_notReg h0 hr]
        exact ih acc x h
      | true =>
        rw [ckFold_cons_reg h0 hr]
        exact ih (acc ++ [f]) x (List.mem_append_left _ h)

theorem ckFold_mem (fs0 : FS) :
    ∀ (files : List FsPath) (acc : List FsPath) (f : FsPath) (st : FStat),
      f ∈ files → getA fs0 f = some st → st.isReg = true →
      f ∈ ckFold fs0 acc files := by
  intro files
  induction files with
  | nil => intro acc f st h; cases h
  | cons g rest ih =>
    intro acc f st hmem hst hr
    rcases List.mem_cons.mp hmem with heq | hmem
    · subst heq
      rw [ckFold_cons_reg hst hr]
      exact ckFold_acc_mono fs0 rest (acc ++ [f]) f
        (List.mem_append_right _ (List.mem_singleton_self f))
    · cases h0 : getA fs0 g with
      | none =>
        rw [ckFold_cons_none h0]
        exact ih acc f st hmem hst hr
      | some st2 =>
        cases hr2 : st2.isReg with
        | false =>
          rw [ckFold_cons_notReg h0 hr2]
          exact ih acc f st hmem hst hr
        | true =>
          rw [ckFold_cons_reg h0 hr2]
          exact ih (acc ++ [g]) f st hmem hst hr

theorem ckFold_congr (fs0 fs1 : FS) :
    ∀ (files : List FsPath) (acc : List FsPath),
      (∀ f ∈ files, getA fs0 f = getA fs1 f) →
      ckFold fs0 acc files = ckFold fs1 acc files := by
  intro files
  induction files with
  | nil => intro acc _; rfl
  | cons f rest ih =>
    intro acc hag
    have hf := hag f (List.mem_cons_self f rest)
    have hrs : ∀ g ∈ rest, getA fs0 g = getA fs1 g :=
      fun g hg => hag g (List.mem_cons_of_mem _ hg)
    cases h0 : getA fs0 f with
    | none =>
      rw [ckFold_cons_none h0, ckFold_cons_none (hf ▸ h0), ih acc hrs]
    | some st =>
      cases hr : st.isReg with
      | false =>
        rw [ckFold_cons_notReg h0 hr, ckFold_cons_notReg (hf ▸ h0) hr, ih acc hrs]
      | true =>
        rw [ckFold_cons_reg h0 hr, ckFold_cons_reg (hf ▸ h0) hr, ih (acc ++ [f]) hrs]

theorem fcFold_congr {conf : Conf} (fs0 fs1 : FS) :
    ∀ (files : List FsPath) (acc : List (String × FsPath)),
      (∀ f ∈ files, getA fs0 f = getA fs1 f) →
      fcFold conf fs0 acc files = fcFold conf fs1 acc files := by
  intro files
  induction files with
  | nil => intro acc _; rfl
  | cons f rest ih =>
    intro acc hag
    have hf := hag f (List.mem_cons_self f rest)
    have hrs : ∀ g ∈ rest, getA fs0 g = getA fs1 g :=
      fun g hg => hag g (List.mem_cons_of_mem _ hg)
    cases h0 : getA fs0 f with
    | none =>
      rw [fcFold_cons_none h0, fcFold_cons_none (hf ▸ h0), ih acc hrs]
    | some st =>
      cases hr : st.isReg with
      | false =>
        rw [fcFold_cons_notReg h0 hr, fcFold_cons_notReg (hf ▸ h0) hr, ih acc hrs]
      | true =>
        cases ho : output_path conf f with
        | none =>
          have e1 : fcFold conf fs0 acc (f :: rest) = fcFold conf fs0 acc rest := by
            simp [fcFold, h0, hr, ho]
          have e2 : fcFold conf fs1 acc (f :: rest) = fcFold conf fs1 acc rest := by
            simp [fcFold, hf ▸ h0, hr, ho]
          rw [e1, e2, ih acc hrs]
        | some op =>
          rw [fcFold_cons_reg h0 hr ho, fcFold_cons_reg (hf ▸ h0) hr ho,
            ih (setA acc (servedKey conf op) op) hrs]

/-- Specification of a completed loop, against a snapshot filesystem: the
checked list and files_cache are the corresponding folds, and every regular
found source ends up with a cache entry equal to its current modification
time.  Requires that no candidate's path can be written by any output. -/
theorem runFiles_ok_spec (fs0 : FS) :
    ∀ (files : List FsPath) (ls ls' : LoopState),
      (∀ u ∈ files, getA ls.fs u = getA fs0 u) →
      (∀ u ∈ files, ∀ t, output_path conf t ≠ some u) →
      runFiles conf cOk now ls files = .ok ls' →
      ls'.checked = ckFold fs0 ls.checked files ∧
      ls'.filesCache = fcFold conf fs0 ls.filesCache files ∧
      (∀ f ∈ files, ∀ st, getA fs0 f = some st → st.isReg = true →
        getA ls'.sourceCache f = some st.mtime ∧ output_path conf f ≠ none) := by
  intro files
  induction files with
  | nil =>
    intro ls ls' _ _ h
    rw [runFiles_nil] at h
    cases h
    exact ⟨rfl, rfl, fun f hf => absurd hf (List.not_mem_nil f)⟩
  | cons f rest ih =>
    intro ls ls' hag hsafe h
    have hagf := hag f (List.mem_cons_self f rest)
    have hsafef := hsafe f (List.mem_cons_self f rest)
    have hagr : ∀ u ∈ rest, getA ls.fs u = getA fs0 u :=
      fun u hu => hag u (List.mem_cons_of_mem _ hu)
    have hsafer : ∀ u ∈ rest, ∀ t, output_path conf t ≠ some u :=
      fun u hu => hsafe u (List.mem_cons_of_mem _ hu)
    rw [runFiles_cons] at h
    cases hs : stepFile conf cOk now ls f with
    | error e =>
      rw [hs] at h
      cases h
    | ok ls1 =>
      rw [hs] at h
      replace h : runFiles conf cOk now ls1 rest = .ok ls' := h
      cases hst0 : getA fs0 f with
      | none =>
        have hls : getA ls.fs f = none := hagf.trans hst0
        rw [stepFile_skip_none hls] at hs
        cases hs
        obtain ⟨c1, c2, c3⟩ := ih ls ls' hagr hsafer h
        refine ⟨?_, ?_, ?_⟩
        · rw [c1, ckFold_cons_none hst0]
        · rw [c2, fcFold_cons_none hst0]
        · intro g hg st hg0 hgr
          rcases List.mem_cons.mp hg with heq | hg
          · subst heq; rw [hst0] at hg0; cases hg0
          · exact c3 g hg st hg0 hgr
      | some st =>
        cases hreg : st.isReg with
        | false =>
          have hls : getA ls.fs f = some st := hagf.trans hst0
          rw [stepFile_skip_notReg hls hreg] at hs
          cases hs
          obtain ⟨c1, c2, c3⟩ := ih ls ls' hagr hsafer h
          refine ⟨?_, ?_, ?_⟩
          · rw [c1, ckFold_cons_notReg hst0 hreg]
          · rw [c2, fcFold_cons_notReg hst0 hreg]
          · intro g hg st2 hg0 hgr
            rcases List.mem_cons.mp hg with heq | hg
            · subst heq
              rw [hst0] at hg0
              injection hg0 with hg0
              subst hg0
              rw [hreg] at hgr
              cases hgr
            · exact c3 g hg st2 hg0 hgr
        | true =>
          have hls : getA ls.fs f = some st := hagf.trans hst0
          rcases stepFile_inv hs with ⟨_, hskip⟩ | hproc
          · rcases hskip with hnone | ⟨st2, hst2, hr2⟩
            · rw [hls] at hnone; cases hnone
            · rw [hls] at hst2
              injection hst2 with hst2
              subst hst2
              rw [hreg] at hr2
              cases hr2
          · obtain ⟨st2, op, hst2, _, hop, hch, hfc, hself, _, hfsf, _, _⟩ := hproc
            rw [hls] at hst2
            injection hst2 with hst2
            subst hst2
            have hagr1 : ∀ u ∈ rest, getA ls1.fs u = getA fs0 u := by
              intro u hu
              have hopu : op ≠ u := by
                intro hequ
                exact hsafe u (List.mem_cons_of_mem _ hu) f (by rw [hop, hequ])
              rw [hfsf u (Ne.symm hopu)]
              exact hagr u hu
            obtain ⟨c1, c2, c3⟩ := ih ls1 ls' hagr1 hsafer h
            refine ⟨?_, ?_, ?_⟩
            · rw [c1, hch, ckFold_cons_reg hst0 hreg]
            · rw [c2, hfc, fcFold_cons_reg hst0 hreg hop]
            · intro g hg st2 hg0 hgr
              rcases List.mem_cons.mp hg with heq | hg
              · subst heq
                rw [hst0] at hg0
                injection hg0 with hg0
                subst hg0
                refine ⟨?_, by rw [hop]; exact fun hcon => Option.noConfusion hcon⟩
                have hopf : op ≠ g := by
                  intro heqf
                  exact hsafef g (by rw [hop, heqf])
                have hfls1 : getA ls1.fs g = some st := by
                  rw [hfsf g (Ne.symm hopf)]; exact hls
                have hin := @runFiles_inert conf cOk now rest ls1 g g
                  (fun t ht => hsafef t)
                  (fun t ht _ => hsafef t)
                  (Or.inr ⟨st, hfls1, Or.inr hself⟩)
                rw [h] at hin
                simp only [lsOf] at hin
                rw [hin.2.1, hself]
              · exact c3 g hg st2 hg0 hgr

/-- When every candidate is fresh (or skipped), a loop performs no
compilation and leaves the filesystem and source cache untouched; the
checked list and files_cache are still fully rebuilt. -/
theorem runFiles_all_fresh :
    ∀ (files : List FsPath) (ls : LoopState),
      (∀ f ∈ files, ∀ st, getA ls.fs f = some st → st.isReg = true →
        getA ls.sourceCache f = some st.mtime ∧ output_path conf f ≠ none) →
      runFiles conf cOk now ls files =
        .ok ⟨ckFold ls.fs ls.checked files, fcFold conf ls.fs ls.filesCache files,
             ls.sourceCache, ls.fs, ls.compiled⟩ := by
  intro files
  induction files with
  | nil => intro ls _; rfl
  | cons f rest ih =>
    intro ls hall
    have hallr : ∀ g ∈ rest, ∀ st, getA ls.fs g = some st → st.isReg = true →
        getA ls.sourceCache g = some st.mtime ∧ output_path conf g ≠ none :=
      fun g hg => hall g (List.mem_cons_of_mem _ hg)
    cases hst : getA ls.fs f with
    | none =>
      rw [runFiles_cons_step (stepFile_skip_none hst), ih ls hallr,
        ckFold_cons_none hst, fcFold_cons_none hst]
    | some st =>
      cases hreg : st.isReg with
      | false =>
        rw [runFiles_cons_step (stepFile_skip_notReg hst hreg), ih ls hallr,
          ckFold_cons_notReg hst hreg, fcFold_cons_notReg hst hreg]
      | true =>
        obtain ⟨hcache, houtp⟩ := hall f (List.mem_cons_self f rest) st hst hreg
        cases ho : output_path conf f with
        | none => exact absurd ho houtp
        | some op =>
          rw [runFiles_cons_step (stepFile_fresh hst hreg ho hcache),
            ih { ls with
              checked := ls.checked ++ [f]
              filesCache := setA ls.filesCache (servedKey conf op) op } hallr,
            ckFold_cons_reg hst hreg, fcFold_cons_reg hst hreg ho]

/-- A stale regular source — cache entry absent or different from its current
modification time, output (or requested map) missing or not strictly newer —
is compiled by a completed loop: it lands on the compiled list, its output
carries the write timestamp, and its cache entry becomes its modification
time.  Side conditions: nothing writes to the source itself, only the source
writes to its output, and nothing writes to its map path. -/
theorem runFiles_stale_compiles {ls ls' : LoopState} {pre post : List FsPath}
    {s op : FsPath} {m : Int}
    (hW : ∀ t ∈ pre ++ s :: post, output_path conf t ≠ some s)
    (hC : ∀ t ∈ pre ++ s :: post, t ≠ s → output_path conf t ≠ some op)
    (hM : ∀ t ∈ pre ++ s :: post, output_path conf t ≠ some (mapPathOf op))
    (hpre : s ∉ pre)
    (hstat : getA ls.fs s = some ⟨m, true⟩)
    (hcache : ¬ getA ls.sourceCache s = some m)
    (hop : output_path conf s = some op)
    (hbad : (newerThan (getA ls.fs op) m &&
             (!conf.cssMap || newerThan (getA ls.fs (mapPathOf op)) m)) = false)
    (hcOk : cOk s = true)
    (hok : runFiles conf cOk now ls (pre ++ s :: post) = .ok ls') :
    s ∈ ls'.compiled ∧ getA ls'.fs op = some ⟨now, true⟩ ∧
      getA ls'.sourceCache s = some m ∧ s ∈ ls'.checked := by
  obtain ⟨lsp, h1, h2⟩ := runFiles_append_ok ls ls' hok
  have hWpre : ∀ t ∈ pre, output_path conf t ≠ some s :=
    fun t ht => hW t (List.mem_append_left _ ht)
  have hCpre : ∀ t ∈ pre, output_path conf t ≠ some op := by
    intro t ht
    exact hC t (List.mem_append_left _ ht) (fun hts => hpre (hts ▸ ht))
  have hMpre : ∀ t ∈ pre, output_path conf t ≠ some (mapPathOf op) :=
    fun t ht => hM t (List.mem_append_left _ ht)
  have hfs_s : getA lsp.fs s = some ⟨m, true⟩ := by
    have := @runFiles_fs_frame conf cOk now pre ls s hWpre
    rw [h1] at this
    simp only [lsOf] at this
    rw [this, hstat]
  have hfs_op : getA lsp.fs op = getA ls.fs op := by
    have := @runFiles_fs_frame conf cOk now pre ls op hCpre
    rw [h1] at this
    simpa [lsOf] using this
  have hfs_map : getA lsp.fs (mapPathOf op) = getA ls.fs (mapPathOf op) := by
    have := @runFiles_fs_frame conf cOk now pre ls (mapPathOf op) hMpre
    rw [h1] at this
    simpa [lsOf] using this
  have hsc_s : getA lsp.sourceCache s = getA ls.sourceCache s := by
    have := @runFiles_cache_frame conf cOk now pre ls s hpre
    rw [h1] at this
    simpa [lsOf] using this
  have hcache2 : ¬ getA lsp.sourceCache s = some (FStat.mk m true).mtime := by
    rw [hsc_s]; exact hcache
  have hbad2 : (newerThan (getA lsp.fs op) (FStat.mk m true).mtime &&
      (!conf.cssMap ||
        newerThan (getA lsp.fs (mapPathOf op)) (FStat.mk m true).mtime)) = false := by
    rw [hfs_op, hfs_map]; exact hbad
  have hstep := @stepFile_compile conf cOk now lsp s ⟨m, true⟩ op
    hfs_s rfl hop hcache2 hbad2 hcOk
  rw [runFiles_cons_step hstep] at h2
  have hWpost : ∀ t ∈ post, output_path conf t ≠ some s :=
    fun t ht => hW t (List.mem_append_right _ (List.mem_cons_of_mem _ ht))
  have hCpost : ∀ t ∈ post, t ≠ s → output_path conf t ≠ some op :=
    fun t ht => hC t (List.mem_append_right _ (List.mem_cons_of_mem _ ht))
  have hops : op ≠ s := fun h =>
    hW s (List.mem_append_right _ (List.mem_cons_self s post)) (h ▸ hop)
  have hin := @runFiles_inert conf cOk now post
    { lsp with
        checked := lsp.checked ++ [s]
        filesCache := setA lsp.filesCache (servedKey conf op) op
        fs := setA lsp.fs op ⟨now, true⟩
        compiled := lsp.compiled ++ [s]
        sourceCache := setA lsp.sourceCache s (FStat.mk m true).mtime }
    s op hWpost hCpost
    (Or.inr ⟨⟨m, true⟩,
      (getA_setA_ne lsp.fs op s ⟨now, true⟩ (Ne.symm hops)).trans hfs_s,
      Or.inr (getA_setA_self lsp.sourceCache s _)⟩)
  rw [h2] at hin
  simp only [lsOf] at hin
  refine ⟨?_, ?_, ?_, ?_⟩
  · have hmem := @runFiles_compiled_mono conf cOk now post
      { lsp with
          checked := lsp.checked ++ [s]
          filesCache := setA lsp.filesCache (servedKey conf op) op
          fs := setA lsp.fs op ⟨now, true⟩
          compiled := lsp.compiled ++ [s]
          sourceCache := setA lsp.sourceCache s (FStat.mk m true).mtime }
      s (List.mem_append_right _ (List.mem_singleton_self s))
    rw [h2] at hmem
    simpa [lsOf] using hmem
  · rw [hin.2.2.1]
    exact getA_setA_self lsp.fs op ⟨now, true⟩
  · rw [hin.2.1]
    exact getA_setA_self lsp.sourceCache s _
  · have hmem := @runFiles_checked_mono conf cOk now post
      { lsp with
          checked := lsp.checked ++ [s]
          filesCache := setA lsp.filesCache (servedKey conf op) op
          fs := setA lsp.fs op ⟨now, true⟩
          compiled := lsp.compiled ++ [s]
          sourceCache := setA lsp.sourceCache s (FStat.mk m true).mtime }
      s (List.mem_append_right _ (List.mem_singleton_self s))
    rw [h2] at hmem
    simpa [lsOf] using hmem

end RunLemmas

section ReconcileLemmas

variable {conf : Conf} {unl : List FsPath}

theorem reconcile_nil {st : List (FsPath × Int) × FS} :
    reconcile conf unl [] st = .ok st := rfl

theorem reconcile_cache_frame (L : List FsPath) :
    ∀ (cache : List (FsPath × Int)) (fs : FS) (k : FsPath), k ∉ L →
      getA (prOf (reconcile conf unl L (cache, fs))).1 k = getA cache k := by
  induction L with
  | nil => intro cache fs k _; rfl
  | cons r rest ih =>
    intro cache fs k hk
    have hkr : k ≠ r := fun h => hk (h ▸ List.mem_cons_self r rest)
    have hkrest : k ∉ rest := fun h => hk (List.mem_cons_of_mem _ h)
    unfold reconcile
    cases ho : output_path conf r with
    | none => simp [prOf, getA_delA_ne cache r k hkr]
    | some op =>
      rw [ih (delA cache r) (if op ∈ unl then fs else delA fs op) k hkrest,
        getA_delA_ne cache r k hkr]

theorem reconcile_cache_none_mono (L : List FsPath) :
    ∀ (cache : List (FsPath × Int)) (fs : FS) (k : FsPath),
      getA cache k = none →
      getA (prOf (reconcile conf unl L (cache, fs))).1 k = none := by
  induction L with
  | nil => intro cache fs k h; exact h
  | cons r rest ih =>
    intro cache fs k h
    have hdel : getA (delA cache r) k = none := by
      by_cases hkr : k = r
      · subst hkr; exact getA_delA_self cache k
      · rw [getA_delA_ne cache r k hkr]; exact h
    unfold reconcile
    cases ho : output_path conf r with
    | none => simpa [prOf] using hdel
    | some op => exact ih (delA cache r) _ k hdel

theorem reconcile_cache_removed (L : List FsPath) :
    ∀ (cache : List (FsPath × Int)) (fs : FS) (k : FsPath), k ∈ L →
      ∀ {c' : List (FsPath × Int)} {fs' : FS},
        reconcile conf unl L (cache, fs) = .ok (c', fs') →
        getA c' k = none := by
  induction L with
  | nil => intro cache fs k h; cases h
  | cons r rest ih =>
    intro cache fs k hk c' fs' h
    unfold reconcile at h
    cases ho : output_path conf r with
    | none => rw [ho] at h; cases h
    | some op =>
      rw [ho] at h
      rcases List.mem_cons.mp hk with heq | hk
      · subst heq
        replace h : reconcile conf unl rest
            (delA cache k, if op ∈ unl then fs else delA fs op) =
            .ok (c', fs') := h
        have hdel : getA (delA cache k) k = none := getA_delA_self cache k
        have := @reconcile_cache_none_mono conf unl rest (delA cache k)
          (if op ∈ unl then fs else delA fs op) k hdel
        rw [h] at this
        simpa [prOf] using this
      · exact ih (delA cache r) _ k hk h

theorem reconcile_fs_frame (L : List FsPath) :
    ∀ (cache : List (FsPath × Int)) (fs : FS) (p : FsPath),
      (∀ t ∈ L, output_path conf t ≠ some p) →
      getA (prOf (reconcile conf unl L (cache, fs))).2 p = getA fs p := by
  induction L with
  | nil => intro cache fs p _; rfl
  | cons r rest ih =>
    intro cache fs p hp
    have hpr : output_path conf r ≠ some p := hp r (List.mem_cons_self r rest)
    have hprest : ∀ t ∈ rest, output_path conf t ≠ some p :=
      fun t ht => hp t (List.mem_cons_of_mem _ ht)
    unfold reconcile
    cases ho : output_path conf r with
    | none => simp [prOf]
    | some op =>
      have hopp : op ≠ p := fun h => hpr (h ▸ ho)
      rw [ih (delA cache r) (if op ∈ unl then fs else delA fs op) p hprest]
      by_cases hu : op ∈ unl
      · rw [if_pos hu]
      · rw [if_neg hu, getA_delA_ne fs op p (Ne.symm hopp)]

theorem reconcile_fs_none_mono (L : List FsPath) :
    ∀ (cache : List (FsPath × Int)) (fs : FS) (p : FsPath),
      getA fs p = none →
      getA (prOf (reconcile conf unl L (cache, fs))).2 p = none := by
  induction L with
  | nil => intro cache fs p h; exact h
  | cons r rest ih =>
    intro cache fs p h
    unfold reconcile
    cases ho : output_path conf r with
    | none => simpa [prOf] using h
    | some op =>
      apply ih
      by_cases hu : op ∈ unl
      · rw [if_pos hu]; exact h
      · rw [if_neg hu]
        by_cases hpo : p = op
        · subst hpo; exact getA_delA_self fs p
        · rw [getA_delA_ne fs op p hpo]; exact h

theorem reconcile_fs_removed (L : List FsPath) :
    ∀ (cache : List (FsPath × Int)) (fs : FS) (r : FsPath) (opr : FsPath),
      r ∈ L → output_path conf r = some opr → opr ∉ unl →
      ∀ {c' : List (FsPath × Int)} {fs' : FS},
        reconcile conf unl L (cache, fs) = .ok (c', fs') →
        getA fs' opr = none := by
  induction L with
  | nil => intro cache fs r opr h; cases h
  | cons g rest ih =>
    intro cache fs r opr hr hopr hnf c' fs' h
    unfold reconcile at h
    rcases List.mem_cons.mp hr with heq | hr
    · subst heq
      rw [hopr] at h
      replace h : reconcile conf unl rest
          (delA cache r, if opr ∈ unl then fs else delA fs opr) =
          .ok (c', fs') := h
      rw [if_neg hnf] at h
      have hdel : getA (delA fs opr) opr = none := getA_delA_self fs opr
      have := @reconcile_fs_none_mono conf unl rest (delA cache r) (delA fs opr) opr hdel
      rw [h] at this
      simpa [prOf] using this
    · cases ho : output_path conf g with
      | none => rw [ho] at h; cases h
      | some op =>
        rw [ho] at h
        exact ih (delA cache g) _ r opr hr hopr hnf h

/-- Unlink failures are swallowed: the cache produced by reconciliation and
its success are independent of the filesystem it acts on and of which
unlinks fail; only the resulting filesystem differs. -/
theorem reconcile_cache_indep (unl2 : List FsPath) (L : List FsPath) :
    ∀ (cache : List (FsPath × Int)) (fs fsb : FS) {c' : List (FsPath × Int)}
      {fs' : FS},
      reconcile conf unl L (cache, fs) = .ok (c', fs') →
      ∃ fs2, reconcile conf unl2 L (cache, fsb) = .ok (c', fs2) := by
  induction L with
  | nil =>
    intro cache fs fsb c' fs' h
    rw [reconcile_nil] at h
    injection h with h
    cases h
    exact ⟨fsb, reconcile_nil⟩
  | cons r rest ih =>
    intro cache fs fsb c' fs' h
    unfold reconcile at h
    cases ho : output_path conf r with
    | none => rw [ho] at h; cases h
    | some op =>
      rw [ho] at h
      replace h : reconcile conf unl rest
          (delA cache r, if op ∈ unl then fs else delA fs op) =
          .ok (c', fs') := h
      obtain ⟨fs2, h2⟩ := ih (delA cache r)
        (if op ∈ unl then fs else delA fs op)
        (if op ∈ unl2 then fsb else delA fsb op) h
      refine ⟨fs2, ?_⟩
      unfold reconcile
      rw [ho]
      exact h2

theorem reconcile_err_kind (L : List FsPath) :
    ∀ (st : List (FsPath × Int) × FS) {ab : PassAbort}
      {st' : List (FsPath × Int) × FS},
      reconcile conf unl L st = .error (ab, st') → ∃ t, ab = .outOfScope t := by
  induction L with
  | nil => intro st ab st' h; cases h
  | cons r rest ih =>
    intro st ab st' h
    obtain ⟨cache, fs⟩ := st
    unfold reconcile at h
    cases ho : output_path conf r with
    | none =>
      rw [ho] at h
      injection h with h
      cases h
      exact ⟨r, rfl⟩
    | some op =>
      rw [ho] at h
      exact ih _ h

end ReconcileLemmas

section PassLemmas

variable {conf : Conf} {glob : String → List FsPath} {cOk : FsPath → Bool}
  {now : Int} {unl : List FsPath} {fs : FS} {c0 : List (FsPath × Int)}

theorem mem_keys_of_getA {α β : Type} [DecidableEq α]
    {l : List (α × β)} {k : α} {v : β} (h : getA l k = some v) :
    k ∈ l.map Prod.fst := by
  induction l with
  | nil => cases h
  | cons kv rest ih =>
    by_cases hk : kv.1 = k
    · simp [hk]
    · rw [getA] at h
      rw [if_neg hk] at h
      simpa using Or.inr (ih h)

theorem not_mem_removedOf_of_checked {ls : LoopState} {k : FsPath}
    (h : k ∈ ls.checked) : k ∉ removedOf ls := by
  intro hmem
  have := List.of_mem_filter hmem
  simp at this
  exact this h

theorem mem_removedOf {ls : LoopState} {k : FsPath} {v : Int}
    (h1 : getA ls.sourceCache k = some v) (h2 : k ∉ ls.checked) :
    k ∈ removedOf ls := by
  unfold removedOf
  refine List.mem_filter.mpr ⟨mem_keys_of_getA h1, ?_⟩
  simpa using h2

theorem runPass_eq_err {ab : PassAbort} {ls' : LoopState}
    (hrf : runFiles conf cOk now ⟨[], [], c0, fs, []⟩ (foundOf conf glob) =
      .error (ab, ls')) :
    runPass conf glob cOk now unl fs c0 =
      ⟨ls'.sourceCache, ls'.filesCache, ls'.fs, ls'.compiled, ls'.checked,
        some ab⟩ := by
  unfold runPass
  rw [hrf]

theorem runPass_eq_ok {ls : LoopState}
    (hrf : runFiles conf cOk now ⟨[], [], c0, fs, []⟩ (foundOf conf glob) =
      .ok ls) :
    runPass conf glob cOk now unl fs c0 = reconcilePass conf unl ls := by
  unfold runPass
  rw [hrf]

theorem reconcilePass_eq_ok {ls : LoopState} {c' : List (FsPath × Int)} {fs' : FS}
    (hrc : reconcile conf unl (removedOf ls) (ls.sourceCache, ls.fs) =
      .ok (c', fs')) :
    reconcilePass conf unl ls =
      ⟨c', ls.filesCache, fs', ls.compiled, ls.checked, none⟩ := by
  unfold reconcilePass
  rw [hrc]

theorem reconcilePass_eq_err {ls : LoopState} {ab : PassAbort}
    {c' : List (FsPath × Int)} {fs' : FS}
    (hrc : reconcile conf unl (removedOf ls) (ls.sourceCache, ls.fs) =
      .error (ab, (c', fs'))) :
    reconcilePass conf unl ls =
      ⟨c', ls.filesCache, fs', ls.compiled, ls.checked, some ab⟩ := by
  unfold reconcilePass
  rw [hrc]

/-- Destructor for a pass that completed without an exception. -/
theorem runPass_ok_inv (h : (runPass conf glob cOk now unl fs c0).aborted = none) :
    ∃ ls c' fs',
      runFiles conf cOk now ⟨[], [], c0, fs, []⟩ (foundOf conf glob) = .ok ls ∧
      reconcile conf unl (removedOf ls) (ls.sourceCache, ls.fs) = .ok (c', fs') ∧
      runPass conf glob cOk now unl fs c0 =
        ⟨c', ls.filesCache, fs', ls.compiled, ls.checked, none⟩ := by
  cases hrf : runFiles conf cOk now ⟨[], [], c0, fs, []⟩ (foundOf conf glob) with
  | error e =>
    obtain ⟨ab, lse⟩ := e
    rw [runPass_eq_err hrf] at h
    simp at h
  | ok ls =>
    cases hrc : reconcile conf unl (removedOf ls) (ls.sourceCache, ls.fs) with
    | error e =>
      obtain ⟨ab, pr⟩ := e
      obtain ⟨cc, ff⟩ := pr
      rw [runPass_eq_ok hrf, reconcilePass_eq_err hrc] at h
      simp at h
    | ok pr =>
      obtain ⟨c', fs'⟩ := pr
      exact ⟨ls, c', fs', rfl, hrc,
        by rw [runPass_eq_ok hrf, reconcilePass_eq_ok hrc]⟩

/-- Destructor for a pass that raised a CompileError: it must have come from
the compile loop, and the pass state is the loop state at the raise. -/
theorem runPass_compileError_inv {s : FsPath}
    (h : (runPass conf glob cOk now unl fs c0).aborted = some (.compileError s)) :
    ∃ ls',
      runFiles conf cOk now ⟨[], [], c0, fs, []⟩ (foundOf conf glob) =
        .error (.compileError s, ls') ∧
      runPass conf glob cOk now unl fs c0 =
        ⟨ls'.sourceCache, ls'.filesCache, ls'.fs, ls'.compiled, ls'.checked,
          some (.compileError s)⟩ := by
  cases hrf : runFiles conf cOk now ⟨[], [], c0, fs, []⟩ (foundOf conf glob) with
  | error e =>
    obtain ⟨ab, lse⟩ := e
    rw [runPass_eq_err hrf] at h
    simp at h
    subst h
    exact ⟨lse, rfl, runPass_eq_err hrf⟩
  | ok ls =>
    cases hrc : reconcile conf unl (removedOf ls) (ls.sourceCache, ls.fs) with
    | error e =>
      obtain ⟨ab, pr⟩ := e
      obtain ⟨cc, ff⟩ := pr
      rw [runPass_eq_ok hrf, reconcilePass_eq_err hrc] at h
      simp at h
      obtain ⟨t, ht⟩ := reconcile_err_kind (removedOf ls) (ls.sourceCache, ls.fs) hrc
      rw [ht] at h
      cases h
    | ok pr =>
      obtain ⟨c', fs'⟩ := pr
      rw [runPass_eq_ok hrf, reconcilePass_eq_ok hrc] at h
      simp at h

/-- Paths that no source maps to are never written or unlinked by a pass. -/
theorem runPass_fs_frame {p : FsPath} (hp : ∀ t, output_path conf t ≠ some p) :
    getA (runPass conf glob cOk now unl fs c0).fs p = getA fs p := by
  cases hrf : runFiles conf cOk now ⟨[], [], c0, fs, []⟩ (foundOf conf glob) with
  | error e =>
    obtain ⟨ab, lse⟩ := e
    rw [runPass_eq_err hrf]
    have := @runFiles_fs_frame conf cOk now (foundOf conf glob)
      ⟨[], [], c0, fs, []⟩ p (fun t _ => hp t)
    rw [hrf] at this
    simpa [lsOf] using this
  | ok ls =>
    have h1 : getA ls.fs p = getA fs p := by
      have := @runFiles_fs_frame conf cOk now (foundOf conf glob)
        ⟨[], [], c0, fs, []⟩ p (fun t _ => hp t)
      rw [hrf] at this
      simpa [lsOf] using this
    have h2 := @reconcile_fs_frame conf unl (removedOf ls) ls.sourceCache ls.fs p
      (fun t _ => hp t)
    rw [runPass_eq_ok hrf]
    cases hrc : reconcile conf unl (removedOf ls) (ls.sourceCache, ls.fs) with
    | error e =>
      obtain ⟨ab, pr⟩ := e
      obtain ⟨cc, ff⟩ := pr
      rw [reconcilePass_eq_err hrc]
      rw [hrc] at h2
      simp only [prOf] at h2
      exact h2.trans h1
    | ok pr =>
      obtain ⟨c', fs'⟩ := pr
      rw [reconcilePass_eq_ok hrc]
      rw [hrc] at h2
      simp only [prOf] at h2
      exact h2.trans h1

/-- Every checked source of a completed loop has a cache entry. -/
theorem runFiles_checked_cache :
    ∀ (files : List FsPath) (ls ls' : LoopState),
      runFiles conf cOk now ls files = .ok ls' →
      (∀ t ∈ ls.checked, (getA ls.sourceCache t).isSome) →
      ∀ t ∈ ls'.checked, (getA ls'.sourceCache t).isSome := by
  intro files
  induction files with
  | nil =>
    intro ls ls' h hinv
    rw [runFiles_nil] at h
    cases h
    exact hinv
  | cons f rest ih =>
    intro ls ls' h hinv
    rw [runFiles_cons] at h
    cases hs : stepFile conf cOk now ls f with
    | error e => rw [hs] at h; cases h
    | ok ls1 =>
      rw [hs] at h
      replace h : runFiles conf cOk now ls1 rest = .ok ls' := h
      refine ih ls1 ls' h ?_
      rcases stepFile_inv hs with ⟨heq, _⟩ | ⟨st, op, _, _, _, hch, _, hself, hsc, _, _, _⟩
      · subst heq; exact hinv
      · intro t ht
        rw [hch] at ht
        by_cases htf : t = f
        · subst htf; rw [hself]; rfl
        · rw [hsc t htf]
          rcases List.mem_append.mp ht with ht | ht
          · exact hinv t ht
          · exact absurd (List.mem_singleton.mp ht) htf

/-- The files_cache key-set invariant of the loop: a key is present exactly
when some checked source's output maps to it. -/
theorem runFiles_filesCache_iff :
    ∀ (files : List FsPath) (ls ls' : LoopState),
      runFiles conf cOk now ls files = .ok ls' →
      (∀ k, (getA ls.filesCache k).isSome ↔
        ∃ f ∈ ls.checked, ∃ op, output_path conf f = some op ∧ servedKey conf op = k) →
      ∀ k, (getA ls'.filesCache k).isSome ↔
        ∃ f ∈ ls'.checked, ∃ op, output_path conf f = some op ∧ servedKey conf op = k := by
  intro files
  induction files with
  | nil =>
    intro ls ls' h hinv
    rw [runFiles_nil] at h
    cases h
    exact hinv
  | cons f rest ih =>
    intro ls ls' h hinv
    rw [runFiles_cons] at h
    cases hs : stepFile conf cOk now ls f with
    | error e => rw [hs] at h; cases h
    | ok ls1 =>
      rw [hs] at h
      replace h : runFiles conf cOk now ls1 rest = .ok ls' := h
      refine ih ls1 ls' h ?_
      rcases stepFile_inv hs with ⟨heq, _⟩ | ⟨st, op, _, _, hop, hch, hfc, _, _, _, _, _⟩
      · subst heq; exact hinv
      · intro k
        rw [hch, hfc]
        by_cases hk : k = servedKey conf op
        · subst hk
          constructor
          · intro _
            exact ⟨f, List.mem_append_right _ (List.mem_singleton_self f), op, hop, rfl⟩
          · intro _
            rw [getA_setA_self]
            rfl
        · rw [getA_setA_ne ls.filesCache (servedKey conf op) k op hk]
          rw [hinv k]
          constructor
          · rintro ⟨g, hg, opg, hopg, hkey⟩
            exact ⟨g, List.mem_append_left _ hg, opg, hopg, hkey⟩
          · rintro ⟨g, hg, opg, hopg, hkey⟩
            rcases List.mem_append.mp hg with hg | hg
            · exact ⟨g, hg, opg, hopg, hkey⟩
            · exfalso
              have hgf : g = f := List.mem_singleton.mp hg
              subst hgf
              rw [hop] at hopg
              injection hopg with hopg
              subst hopg
              exact hk hkey.symm

end PassLemmas

section FindLemmas

variable {f : Finder} {glob : String → List FsPath} {cOk : FsPath → Bool}
  {now : Int} {unl : List FsPath} {appsReady : Bool} {fs : FS}
  {path : String} {all : Bool}

theorem find_gate_off
    (hab : (runPass f.conf glob cOk now unl fs f.sourceCache).aborted = none)
    (hss : f.serveStaticNow appsReady = false) :
    Finder.find f glob cOk now unl appsReady fs path all =
      .ok (FindRet.many [],
        ⟨f.settings, f.conf,
          (pathInAppdirs f.settings f.conf.cssCompileDir appsReady
            f.serveStaticFlag f.appsStaticChecked).1,
          (pathInAppdirs f.settings f.conf.cssCompileDir appsReady
            f.serveStaticFlag f.appsStaticChecked).2,
          (runPass f.conf glob cOk now unl fs f.sourceCache).sourceCache,
          (runPass f.conf glob cOk now unl fs f.sourceCache).filesCache⟩,
        (runPass f.conf glob cOk now unl fs f.sourceCache).fs) := by
  unfold Finder.serveStaticNow at hss
  unfold Finder.find
  dsimp only
  rw [hab]
  dsimp only [Finder.serveStatic]
  rw [hss]
  rfl

theorem find_gate_hit {op : FsPath}
    (hab : (runPass f.conf glob cOk now unl fs f.sourceCache).aborted = none)
    (hss : f.serveStaticNow appsReady = true)
    (hget : getA (runPass f.conf glob cOk now unl fs f.sourceCache).filesCache
      path = some op) :
    Finder.find f glob cOk now unl appsReady fs path all =
      .ok ((if all then FindRet.many [posix op] else FindRet.one (posix op)),
        ⟨f.settings, f.conf,
          (pathInAppdirs f.settings f.conf.cssCompileDir appsReady
            f.serveStaticFlag f.appsStaticChecked).1,
          (pathInAppdirs f.settings f.conf.cssCompileDir appsReady
            f.serveStaticFlag f.appsStaticChecked).2,
          (runPass f.conf glob cOk now unl fs f.sourceCache).sourceCache,
          (runPass f.conf glob cOk now unl fs f.sourceCache).filesCache⟩,
        (runPass f.conf glob cOk now unl fs f.sourceCache).fs) := by
  unfold Finder.serveStaticNow at hss
  unfold Finder.find
  dsimp only
  rw [hab]
  dsimp only [Finder.serveStatic]
  rw [hss]
  rw [if_pos rfl]
  rw [hget]

theorem find_gate_miss
    (hab : (runPass f.conf glob cOk now unl fs f.sourceCache).aborted = none)
    (hss : f.serveStaticNow appsReady = true)
    (hget : getA (runPass f.conf glob cOk now unl fs f.sourceCache).filesCache
      path = none) :
    Finder.find f glob cOk now unl appsReady fs path all =
      .ok (FindRet.many [],
        ⟨f.settings, f.conf,
          (pathInAppdirs f.settings f.conf.cssCompileDir appsReady
            f.serveStaticFlag f.appsStaticChecked).1,
          (pathInAppdirs f.settings f.conf.cssCompileDir appsReady
            f.serveStaticFlag f.appsStaticChecked).2,
          (runPass f.conf glob cOk now unl fs f.sourceCache).sourceCache,
          (runPass f.conf glob cOk now unl fs f.sourceCache).filesCache⟩,
        (runPass f.conf glob cOk now unl fs f.sourceCache).fs) := by
  unfold Finder.serveStaticNow at hss
  unfold Finder.find
  dsimp only
  rw [hab]
  dsimp only [Finder.serveStatic]
  rw [hss]
  rw [if_pos rfl]
  rw [hget]

theorem listCss_eq
    (hab : (runPass f.conf glob cOk now unl fs f.sourceCache).aborted = none) :
    Finder.listCss f glob cOk now unl appsReady fs =
      .ok ((if f.serveStaticNow appsReady then
          (runPass f.conf glob cOk now unl fs f.sourceCache).filesCache.map
            Prod.fst
        else []),
        ⟨f.settings, f.conf,
          (pathInAppdirs f.settings f.conf.cssCompileDir appsReady
            f.serveStaticFlag f.appsStaticChecked).1,
          (pathInAppdirs f.settings f.conf.cssCompileDir appsReady
            f.serveStaticFlag f.appsStaticChecked).2,
          (runPass f.conf glob cOk now unl fs f.sourceCache).sourceCache,
          (runPass f.conf glob cOk now unl fs f.sourceCache).filesCache⟩,
        (runPass f.conf glob cOk now unl fs f.sourceCache).fs) := by
  unfold Finder.listCss
  dsimp only
  rw [hab]
  dsimp only [Finder.serveStatic, Finder.serveStaticNow]

/-- When the output directory sits inside STATICFILES_DIRS, or inside an
app's static directory with apps ready at query time, and CSS_SERVE_STATIC
is absent or False, the serve_static property evaluates to False. -/
theorem serveStaticNow_false_of_gate (st : Settings) (initReady appsReady : Bool)
    (hserve : st.cssServeStatic = none ∨ st.cssServeStatic = some false)
    (hin : st.staticfilesDirs.any
        (fun d => pathIsParent (st.cssCompileDir.getD st.scssRoot) d) = true ∨
      (appsReady = true ∧ st.appStaticDirs.any
        (fun d => pathIsParent (st.cssCompileDir.getD st.scssRoot) d) = true)) :
    (mkFinder st initReady).serveStaticNow appsReady = false := by
  have hgd : st.cssServeStatic.getD false = false := by
    rcases hserve with h | h <;> simp [h]
  unfold Finder.serveStaticNow mkFinder pathInStaticfiles pathInAppdirs
  dsimp only
  by_cases hs : st.staticfilesDirs.any
      (fun d => pathIsParent (st.cssCompileDir.getD st.scssRoot) d) = true
  · rw [if_pos hs, hgd]
    simp
  · rw [if_neg hs]
    rcases hin with hin | ⟨har, hia⟩
    · exact absurd hin hs
    · subst har
      cases initReady with
      | false => simp [hia, hgd]
      | true => simp [hia, hgd]

end FindLemmas

theorem checkLoop_eq (glob : String → List FsPath) :
    ∀ items : List String,
      checkLoop glob items =
        (items.filter (fun it => (glob it).isEmpty)).map
          (fun it => ⟨it, "sass.E001"⟩) := by
  intro items
  induction items with
  | nil => rfl
  | cons it rest ih =>
    cases hg : glob it with
    | nil => simp [checkLoop, hg, ih]
    | cons x xs => simp [checkLoop, hg, ih]

/-- C7: output_path is a pure deterministic mapping: for a source lexically
within the source root it mirrors the source's directory structure under the
output root and replaces the file name's extension with .css (pathlib stem +
".css"); for any path that is not a descendant of the source root it fails
(raises ValueError, modelled as none). -/
theorem C7_output_path_spec (conf : Conf) :
    (∀ p : FsPath, ¬ conf.root <+: p → output_path conf p = none) ∧
    (∀ (rdir : List String) (name : String),
      output_path conf (conf.root ++ (rdir ++ [name])) =
        some (conf.cssCompileDir ++ rdir ++ [stem name ++ ".css"])) := by
  constructor
  · intro p hp
    unfold output_path relTo
    rw [if_neg (fun hc => hp (List.isPrefixOf_iff_prefix.mp hc))]
  · intro rdir name
    unfold output_path relTo
    rw [if_pos (List.isPrefixOf_iff_prefix.mpr (List.prefix_append _ _)),
      List.drop_left]
    have hlast : (conf.root ++ (rdir ++ [name])).getLast? = some name := by
      rw [← List.append_assoc]
      exact List.getLast?_concat _
    rw [hlast]
    simp [List.dropLast_concat]

/-- Witness for C7 at a concrete configuration: a path outside the root is
rejected, and r/sub/a.scss maps to o/sub/a.css. -/
theorem C7_output_path_spec_witness :
    output_path EX.conf1 ["x", "a.scss"] = none ∧
    output_path EX.conf1 (EX.rootP ++ (["sub"] ++ ["a.scss"])) =
      some (EX.outP ++ ["sub"] ++ [stem "a.scss" ++ ".css"]) :=
  ⟨(C7_output_path_spec EX.conf1).1 ["x", "a.scss"] (by decide),
   (C7_output_path_spec EX.conf1).2 ["sub"] "a.scss"⟩

/-- C8: the configuration check returns exactly one warning (a django Error
with id sass.E001) for each configured glob pattern matching no file, in
pattern order, and returns the empty list precisely when every pattern
matches at least one file; it is a pure query, so the build pass is
unaffected by it. -/
theorem C8_check_spec (f : Finder) (glob : String → List FsPath) :
    Finder.check f glob =
      (f.conf.scssCompile.filter (fun it => (glob it).isEmpty)).map
        (fun it => ⟨it, "sass.E001"⟩) ∧
    (Finder.check f glob = [] ↔ ∀ pat ∈ f.conf.scssCompile, glob pat ≠ []) := by
  have h := checkLoop_eq glob f.conf.scssCompile
  constructor
  · exact h
  · unfold Finder.check at h ⊢
    rw [h]
    simp [List.filter_eq_nil_iff, List.isEmpty_iff]

/-- Witness for C8: with one pattern matching no file the check reports one
sass.E001 error naming that pattern; with the pattern matching a file it
reports nothing. -/
theorem C8_check_spec_witness :
    Finder.check (mkFinder EX.stFree true) EX.globNone =
      [⟨"*.scss", "sass.E001"⟩] ∧
    Finder.check (mkFinder EX.stFree true) EX.glob1 = [] := by
  constructor
  · rw [(C8_check_spec (mkFinder EX.stFree true) EX.globNone).1]
    rfl
  · rw [(C8_check_spec (mkFinder EX.stFree true) EX.glob1).1]
    rfl

/-- C1 counterexample: with two found sources and the first one failing to
compile, the pass raises (aborted is the CompileError), the second source is
never processed (it is not on the checked list and nothing was compiled), so
the error is not caught and the pass is not partial-failure.  The failing
source's cache entry is indeed left unchanged (the cache stays empty). -/
theorem C1_counterexample :
    (runPass EX.conf1 EX.glob2 EX.failA 100 [] EX.fs2 []).aborted =
      some (.compileError EX.srcA) ∧
    EX.srcB ∈ foundOf EX.conf1 EX.glob2 ∧
    EX.srcB ∉ (runPass EX.conf1 EX.glob2 EX.failA 100 [] EX.fs2 []).checked ∧
    (runPass EX.conf1 EX.glob2 EX.failA 100 [] EX.fs2 []).compiled = [] ∧
    (runPass EX.conf1 EX.glob2 EX.failA 100 [] EX.fs2 []).sourceCache = [] := by
  decide

/-- C1 (amended): a CompileError raised while compiling one source is not
caught: it propagates out of compile_scss and aborts the pass — the found
sources after the failing one are not processed — while the failing source's
cache entry is left unchanged.  (Stated for glob results without duplicate
candidates.) -/
theorem C1_compile_error_aborts (conf : Conf) (glob : String → List FsPath)
    (cOk : FsPath → Bool) (now : Int) (unl : List FsPath) (fs : FS)
    (c0 : List (FsPath × Int)) (s : FsPath)
    (hnodup : (foundOf conf glob).Nodup)
    (habort : (runPass conf glob cOk now unl fs c0).aborted =
      some (.compileError s)) :
    getA (runPass conf glob cOk now unl fs c0).sourceCache s = getA c0 s ∧
    ∃ pre post, foundOf conf glob = pre ++ s :: post ∧
      ∀ t ∈ post, t ∉ (runPass conf glob cOk now unl fs c0).checked := by
  obtain ⟨ls', hrf, heq⟩ := runPass_compileError_inv habort
  obtain ⟨pre, g, post, lsm, hsplit, h1, h2⟩ :=
    runFiles_err_decomp (foundOf conf glob) _ ls' hrf
  obtain ⟨st, hst, hreg, hsrc, hch, hsc, hcp, herr⟩ := stepFile_err_inv h2
  have hgs : g = s := by simpa [PassAbort.src] using hsrc.symm
  subst hgs
  rw [hsplit] at hnodup
  have hdisj : List.Disjoint pre (g :: post) :=
    (List.nodup_append.mp hnodup).2.2
  have hgpre : g ∉ pre := fun hmem => hdisj hmem (List.mem_cons_self g post)
  have hgpost : g ∉ post :=
    (List.nodup_cons.mp (List.nodup_append.mp hnodup).2.1).1
  constructor
  · rw [heq]
    have hframe := @runFiles_cache_frame conf cOk now pre
      ⟨[], [], c0, fs, []⟩ g hgpre
    rw [h1] at hframe
    simp only [lsOf] at hframe
    rw [hsc, hframe]
  · refine ⟨pre, post, hsplit, ?_⟩
    intro t ht
    rw [heq]
    intro hmem
    simp only at hmem
    rw [hch] at hmem
    rcases List.mem_append.mp hmem with hmem | hmem
    · have := @runFiles_checked_sub conf cOk now pre ⟨[], [], c0, fs, []⟩ t
      rw [h1] at this
      simp only [lsOf] at this
      rcases this hmem with hf | hf
      · exact absurd hf (List.not_mem_nil t)
      · exact hdisj hf (List.mem_cons_of_mem _ ht)
    · rw [List.mem_singleton.mp hmem] at ht
      exact hgpost ht

/-- Witness for C1: the amended statement applied at the concrete
two-source scenario with the first compile failing. -/
theorem C1_compile_error_aborts_witness :
    (foundOf EX.conf1 EX.glob2).Nodup ∧
    (runPass EX.conf1 EX.glob2 EX.failA 100 [] EX.fs2 []).aborted =
      some (.compileError EX.srcA) ∧
    (getA (runPass EX.conf1 EX.glob2 EX.failA 100 [] EX.fs2 []).sourceCache
        EX.srcA = getA ([] : List (FsPath × Int)) EX.srcA ∧
     ∃ pre post, foundOf EX.conf1 EX.glob2 = pre ++ EX.srcA :: post ∧
       ∀ t ∈ post,
         t ∉ (runPass EX.conf1 EX.glob2 EX.failA 100 [] EX.fs2 []).checked) :=
  ⟨by decide, by decide,
    C1_compile_error_aborts EX.conf1 EX.glob2 EX.failA 100 [] EX.fs2 [] EX.srcA
      (by decide) (by decide)⟩

theorem mem_first_split {α : Type} {l : List α} {s : α} [DecidableEq α]
    (h : s ∈ l) : ∃ pre post, l = pre ++ s :: post ∧ s ∉ pre := by
  induction l with
  | nil => cases h
  | cons a rest ih =>
    by_cases has : a = s
    · exact ⟨[], rest, by simp [has], List.not_mem_nil s⟩
    · rcases List.mem_cons.mp h with heq | hmem
      · exact absurd heq.symm has
      · obtain ⟨pre, post, hsp, hnp⟩ := ih hmem
        refine ⟨a :: pre, post, by simp [hsp], ?_⟩
        intro hm
        rcases List.mem_cons.mp hm with he | hm
        · exact has he.symm
        · exact hnp hm

theorem getA_isSome_of_mem_keys {α β : Type} [DecidableEq α]
    {l : List (α × β)} {k : α} (h : k ∈ l.map Prod.fst) : (getA l k).isSome := by
  induction l with
  | nil => simp at h
  | cons kv rest ih =>
    by_cases hkv : kv.1 = k
    · rw [getA, if_pos hkv]
      rfl
    · have h' : k ∈ kv.1 :: rest.map Prod.fst := by simpa using h
      rcases List.mem_cons.mp h' with he | hm
      · exact absurd he.symm hkv
      · rw [getA, if_neg hkv]
        exact ih hm

theorem output_path_prefix {conf : Conf} {t q : FsPath}
    (h : output_path conf t = some q) : conf.cssCompileDir <+: q := by
  cases hrel : relTo conf.root t with
  | none =>
    unfold output_path at h
    rw [hrel] at h
    cases h
  | some rel =>
    unfold output_path at h
    rw [hrel] at h
    injection h with h
    subst h
    rw [List.append_assoc]
    exact List.prefix_append _ _

/-- C2 counterexample: source a's cache entry equals its current modification
time (5) and its output file is missing from disk, yet the pass compiles
nothing and the output stays missing — there is no output resurrection for a
source with a matching cache entry. -/
theorem C2_counterexample :
    getA EX.fs2 EX.srcA = some ⟨5, true⟩ ∧
    getA [(EX.srcA, (5 : Int)), (EX.srcB, 7)] EX.srcA = some 5 ∧
    getA EX.fs2 EX.outA = none ∧
    (runPass EX.conf1 EX.glob2 EX.okAll 100 [] EX.fs2
        [(EX.srcA, 5), (EX.srcB, 7)]).compiled = [] ∧
    getA (runPass EX.conf1 EX.glob2 EX.okAll 100 [] EX.fs2
        [(EX.srcA, 5), (EX.srcB, 7)]).fs EX.outA = none ∧
    (runPass EX.conf1 EX.glob2 EX.okAll 100 [] EX.fs2
        [(EX.srcA, 5), (EX.srcB, 7)]).aborted = none := by
  decide

/-- C2 (amended): output resurrection happens only for a source whose cache
entry is absent or differs from its current modification time: then, when
its output file is missing or not strictly newer than the current
modification time (or, when maps are requested, the map file is missing or
not newer), the pass recompiles the source and regenerates the output.  A
source whose cache entry equals its current modification time is skipped
without examining the output.  Side conditions: no found source's output
collides with the source itself, with its output, or with its map path. -/
theorem C2_output_resurrection (conf : Conf) (glob : String → List FsPath)
    (cOk : FsPath → Bool) (now : Int) (unl : List FsPath) (fs : FS)
    (c0 : List (FsPath × Int)) (s op : FsPath) (m : Int)
    (hfound : s ∈ foundOf conf glob)
    (hstat : getA fs s = some ⟨m, true⟩)
    (hcache : ¬ getA c0 s = some m)
    (hop : output_path conf s = some op)
    (hbad : (newerThan (getA fs op) m &&
      (!conf.cssMap || newerThan (getA fs (mapPathOf op)) m)) = false)
    (hW : ∀ t ∈ foundOf conf glob, output_path conf t ≠ some s)
    (hC : ∀ t, (t ∈ foundOf conf glob ∨ (getA c0 t).isSome) → t ≠ s →
      output_path conf t ≠ some op)
    (hM : ∀ t ∈ foundOf conf glob, output_path conf t ≠ some (mapPathOf op))
    (hcOk : cOk s = true)
    (habort : (runPass conf glob cOk now unl fs c0).aborted = none) :
    s ∈ (runPass conf glob cOk now unl fs c0).compiled ∧
    getA (runPass conf glob cOk now unl fs c0).fs op = some ⟨now, true⟩ := by
  obtain ⟨ls, c', fs', hrf, hrc, heq⟩ := runPass_ok_inv habort
  obtain ⟨pre, post, hsplit, hpre⟩ := mem_first_split hfound
  rw [hsplit] at hrf
  have hstale := runFiles_stale_compiles
    (fun t ht => hW t (hsplit ▸ ht))
    (fun t ht hts => hC t (Or.inl (hsplit ▸ ht)) hts)
    (fun t ht => hM t (hsplit ▸ ht))
    hpre hstat hcache hop hbad hcOk hrf
  obtain ⟨hcomp, hout, hcachem, hchk⟩ := hstale
  constructor
  · rw [heq]
    exact hcomp
  · rw [heq]
    have hframe := @reconcile_fs_frame conf unl (removedOf ls)
      ls.sourceCache ls.fs op ?_
    · rw [hrc] at hframe
      simp only [prOf] at hframe
      rw [hframe]
      exact hout
    · intro t ht
      have htc := List.of_mem_filter ht
      have htk := List.mem_filter.mp ht
      have htnc : t ∉ ls.checked := by simpa using htc
      have htne : t ≠ s := fun hts => htnc (hts ▸ hchk)
      refine hC t ?_ htne
      by_cases htf : t ∈ foundOf conf glob
      · exact Or.inl htf
      · right
        have hfr := @runFiles_cache_frame conf cOk now (foundOf conf glob)
          ⟨[], [], c0, fs, []⟩ t htf
        rw [hsplit, hrf] at hfr
        simp only [lsOf] at hfr
        have hsome : (getA ls.sourceCache t).isSome :=
          getA_isSome_of_mem_keys htk.1
        rw [hfr] at hsome
        exact hsome

/-- Witness for C2: source a has a cache entry 4 differing from its current
modification time 5 and no output on disk; the completed pass recompiles it
and writes the output with the pass timestamp. -/
theorem C2_output_resurrection_witness :
    EX.srcA ∈ foundOf EX.conf1 EX.glob2 ∧
    getA EX.fs2 EX.srcA = some ⟨5, true⟩ ∧
    ¬ getA [(EX.srcA, (4 : Int)), (EX.srcB, 7)] EX.srcA = some 5 ∧
    (EX.srcA ∈ (runPass EX.conf1 EX.glob2 EX.okAll 100 [] EX.fs2
        [(EX.srcA, 4), (EX.srcB, 7)]).compiled ∧
      getA (runPass EX.conf1 EX.glob2 EX.okAll 100 [] EX.fs2
        [(EX.srcA, 4), (EX.srcB, 7)]).fs EX.outA = some ⟨100, true⟩) := by
  refine ⟨by decide, by decide, by decide, ?_⟩
  refine C2_output_resurrection EX.conf1 EX.glob2 EX.okAll 100 [] EX.fs2
    [(EX.srcA, 4), (EX.srcB, 7)] EX.srcA EX.outA 5
    (by decide) (by decide) (by decide) (by decide) (by decide)
    ?_ ?_ ?_ (by decide) (by decide)
  · intro t ht h
    have hfd : foundOf EX.conf1 EX.glob2 = [EX.srcA, EX.srcB] := by decide
    rw [hfd] at ht
    have hts : t = EX.srcA ∨ t = EX.srcB := by simpa using ht
    rcases hts with rfl | rfl
    · exact absurd h (by decide)
    · exact absurd h (by decide)
  · intro t ht hne h
    have hts : t = EX.srcA ∨ t = EX.srcB := by
      rcases ht with ht | ht
      · have hfd : foundOf EX.conf1 EX.glob2 = [EX.srcA, EX.srcB] := by decide
        rw [hfd] at ht
        simpa using ht
      · by_cases h1 : EX.srcA = t
        · exact Or.inl h1.symm
        · by_cases h2 : EX.srcB = t
          · exact Or.inr h2.symm
          · exfalso
            rw [getA, if_neg h1, getA, if_neg h2] at ht
            simp [getA] at ht
    rcases hts with rfl | rfl
    · exact hne rfl
    · exact absurd h (by decide)
  · intro t ht h
    have hfd : foundOf EX.conf1 EX.glob2 = [EX.srcA, EX.srcB] := by decide
    rw [hfd] at ht
    have hts : t = EX.srcA ∨ t = EX.srcB := by simpa using ht
    rcases hts with rfl | rfl
    · exact absurd h (by decide)
    · exact absurd h (by decide)

/-- C3 counterexample: source a's cached fresh time (5) differs from its
current modification time (3), yet because its output's modification time
(100) is strictly newer than 3 the pass compiles nothing — it merely records
the new time in the cache.  The claim's "cached time differs → recompiled"
is false on the code. -/
theorem C3_counterexample :
    getA EX.fsRegress EX.srcA = some ⟨3, true⟩ ∧
    getA [(EX.srcA, (5 : Int)), (EX.srcB, 7)] EX.srcA = some 5 ∧
    (runPass EX.conf1 EX.glob2 EX.okAll 200 [] EX.fsRegress
        [(EX.srcA, 5), (EX.srcB, 7)]).compiled = [] ∧
    getA (runPass EX.conf1 EX.glob2 EX.okAll 200 [] EX.fsRegress
        [(EX.srcA, 5), (EX.srcB, 7)]).sourceCache EX.srcA = some 3 ∧
    (runPass EX.conf1 EX.glob2 EX.okAll 200 [] EX.fsRegress
        [(EX.srcA, 5), (EX.srcB, 7)]).aborted = none := by
  decide

/-- C3 (amended): if a found source's cached fresh time differs from its
current modification time AND its output (or requested map) is missing or
not strictly newer than that time, the pass recompiles exactly that source,
and the cache fresh-time entries of every other checked source are
unchanged.  Side conditions: every other found source is skipped or fresh,
no output path collides with a found source, only this source maps to its
output, and nothing maps to its map path. -/
theorem C3_change_detection (conf : Conf) (glob : String → List FsPath)
    (cOk : FsPath → Bool) (now : Int) (unl : List FsPath) (fs : FS)
    (c0 : List (FsPath × Int)) (s op : FsPath) (m m0 : Int)
    (hfound : s ∈ foundOf conf glob)
    (hstat : getA fs s = some ⟨m, true⟩)
    (hc0 : getA c0 s = some m0) (hne : m0 ≠ m)
    (hop : output_path conf s = some op)
    (hbad : (newerThan (getA fs op) m &&
      (!conf.cssMap || newerThan (getA fs (mapPathOf op)) m)) = false)
    (hofresh : ∀ t ∈ foundOf conf glob, t ≠ s →
      getA fs t = none ∨ ∃ st, getA fs t = some st ∧
        (st.isReg = false ∨ getA c0 t = some st.mtime))
    (hsafe : ∀ u ∈ foundOf conf glob, ∀ t, output_path conf t ≠ some u)
    (hcol : ∀ t ∈ foundOf conf glob, t ≠ s → output_path conf t ≠ some op)
    (hmap : ∀ t ∈ foundOf conf glob, output_path conf t ≠ some (mapPathOf op))
    (hcOk : cOk s = true)
    (habort : (runPass conf glob cOk now unl fs c0).aborted = none) :
    (s ∈ (runPass conf glob cOk now unl fs c0).compiled ∧
     ∀ t ∈ (runPass conf glob cOk now unl fs c0).compiled, t = s) ∧
    (∀ t ∈ (runPass conf glob cOk now unl fs c0).checked, t ≠ s →
      getA (runPass conf glob cOk now unl fs c0).sourceCache t = getA c0 t) := by
  obtain ⟨ls, c', fs', hrf, hrc, heq⟩ := runPass_ok_inv habort
  have hcache : ¬ getA c0 s = some m := by
    rw [hc0]
    intro hcon
    injection hcon with hcon
    exact hne hcon
  obtain ⟨pre, post, hsplit, hpre⟩ := mem_first_split hfound
  have hrf' := hrf
  rw [hsplit] at hrf'
  obtain ⟨hcomp, hout, hcachem, hchk⟩ := runFiles_stale_compiles
    (fun t ht => hsafe s hfound t)
    (fun t ht hts => hcol t (hsplit ▸ ht) hts)
    (fun t ht => hmap t (hsplit ▸ ht))
    hpre hstat hcache hop hbad hcOk hrf'
  have hinert : ∀ t ∈ foundOf conf glob, t ≠ s →
      getA ls.sourceCache t = getA c0 t ∧ t ∉ ls.compiled := by
    intro t ht hts
    have hin := @runFiles_inert conf cOk now (foundOf conf glob)
      ⟨[], [], c0, fs, []⟩ t t
      (fun u hu => hsafe t ht u)
      (fun u hu _ => hsafe t ht u)
      (hofresh t ht hts)
    rw [hrf] at hin
    simp only [lsOf] at hin
    exact ⟨hin.2.1, hin.2.2.2 (List.not_mem_nil t)⟩
  constructor
  · constructor
    · rw [heq]
      exact hcomp
    · intro t htc
      rw [heq] at htc
      simp only at htc
      by_contra hts
      have htf : t ∈ foundOf conf glob := by
        have := @runFiles_compiled_sub conf cOk now (foundOf conf glob)
          ⟨[], [], c0, fs, []⟩ t
        rw [hrf] at this
        simp only [lsOf] at this
        rcases this htc with hf | hf
        · exact absurd hf (List.not_mem_nil t)
        · exact hf
      exact (hinert t htf hts).2 htc
  · intro t htc hts
    rw [heq] at htc ⊢
    simp only at htc ⊢
    have hnr : t ∉ removedOf ls := not_mem_removedOf_of_checked htc
    have hfr := @reconcile_cache_frame conf unl (removedOf ls)
      ls.sourceCache ls.fs t hnr
    rw [hrc] at hfr
    simp only [prOf] at hfr
    rw [hfr]
    by_cases htf : t ∈ foundOf conf glob
    · exact (hinert t htf hts).1
    · have := @runFiles_cache_frame conf cOk now (foundOf conf glob)
        ⟨[], [], c0, fs, []⟩ t htf
      rw [hrf] at this
      simpa [lsOf] using this

/-- Witness for C3: source a touched to mtime 6 with output at mtime 5,
source b fresh; the pass recompiles exactly source a and leaves source b's
cache timestamp bit-for-bit unchanged. -/
theorem C3_change_detection_witness :
    EX.srcA ∈ foundOf EX.conf1 EX.glob2 ∧
    getA EX.fsTouched EX.srcA = some ⟨6, true⟩ ∧
    getA [(EX.srcA, (5 : Int)), (EX.srcB, 7)] EX.srcA = some 5 ∧
    ((EX.srcA ∈ (runPass EX.conf1 EX.glob2 EX.okAll 200 [] EX.fsTouched
        [(EX.srcA, 5), (EX.srcB, 7)]).compiled ∧
      ∀ t ∈ (runPass EX.conf1 EX.glob2 EX.okAll 200 [] EX.fsTouched
        [(EX.srcA, 5), (EX.srcB, 7)]).compiled, t = EX.srcA) ∧
     (∀ t ∈ (runPass EX.conf1 EX.glob2 EX.okAll 200 [] EX.fsTouched
        [(EX.srcA, 5), (EX.srcB, 7)]).checked, t ≠ EX.srcA →
       getA (runPass EX.conf1 EX.glob2 EX.okAll 200 [] EX.fsTouched
         [(EX.srcA, 5), (EX.srcB, 7)]).sourceCache t =
       getA [(EX.srcA, (5 : Int)), (EX.srcB, 7)] t)) := by
  refine ⟨by decide, by decide, by decide, ?_⟩
  refine C3_change_detection EX.conf1 EX.glob2 EX.okAll 200 [] EX.fsTouched
    [(EX.srcA, 5), (EX.srcB, 7)] EX.srcA EX.outA 6 5
    (by decide) (by decide) (by decide) (by decide) (by decide) (by decide)
    ?_ ?_ ?_ ?_ (by decide) (by decide)
  · intro t ht hts
    have hfd : foundOf EX.conf1 EX.glob2 = [EX.srcA, EX.srcB] := by decide
    rw [hfd] at ht
    have : t = EX.srcA ∨ t = EX.srcB := by simpa using ht
    rcases this with rfl | rfl
    · exact absurd rfl hts
    · right
      exact ⟨⟨7, true⟩, by decide, Or.inr (by decide)⟩
  · intro u hu t h
    have hfd : foundOf EX.conf1 EX.glob2 = [EX.srcA, EX.srcB] := by decide
    rw [hfd] at hu
    have : u = EX.srcA ∨ u = EX.srcB := by simpa using hu
    have hq := output_path_prefix h
    rcases this with rfl | rfl
    · exact absurd hq (by decide)
    · exact absurd hq (by decide)
  · intro t ht hts h
    have hfd : foundOf EX.conf1 EX.glob2 = [EX.srcA, EX.srcB] := by decide
    rw [hfd] at ht
    have : t = EX.srcA ∨ t = EX.srcB := by simpa using ht
    rcases this with rfl | rfl
    · exact absurd rfl hts
    · exact absurd h (by decide)
  · intro t ht h
    have hfd : foundOf EX.conf1 EX.glob2 = [EX.srcA, EX.srcB] := by decide
    rw [hfd] at ht
    have : t = EX.srcA ∨ t = EX.srcB := by simpa using ht
    rcases this with rfl | rfl
    · exact absurd h (by decide)
    · exact absurd h (by decide)

/-- C4: idempotence of the build pass.  After a completed pass, a second
pass over the unchanged filesystem (any write clock, any unlink failures,
any compiler) invokes the compiler zero times, completes, and produces a
ServedIndex (files_cache) and source cache identical to the first pass's.
Side condition: no output path collides with a glob candidate, so that the
first pass's writes and unlinks cannot alter what the scan sees. -/
theorem C4_idempotence (conf : Conf) (glob : String → List FsPath)
    (cOk cOk2 : FsPath → Bool) (now now2 : Int) (unl unl2 : List FsPath)
    (fs0 : FS) (c0 : List (FsPath × Int))
    (hsafe : ∀ u ∈ foundOf conf glob, ∀ t, output_path conf t ≠ some u)
    (h1 : (runPass conf glob cOk now unl fs0 c0).aborted = none) :
    (runPass conf glob cOk2 now2 unl2
        (runPass conf glob cOk now unl fs0 c0).fs
        (runPass conf glob cOk now unl fs0 c0).sourceCache).compiled = [] ∧
    (runPass conf glob cOk2 now2 unl2
        (runPass conf glob cOk now unl fs0 c0).fs
        (runPass conf glob cOk now unl fs0 c0).sourceCache).filesCache =
      (runPass conf glob cOk now unl fs0 c0).filesCache ∧
    (runPass conf glob cOk2 now2 unl2
        (runPass conf glob cOk now unl fs0 c0).fs
        (runPass conf glob cOk now unl fs0 c0).sourceCache).sourceCache =
      (runPass conf glob cOk now unl fs0 c0).sourceCache ∧
    (runPass conf glob cOk2 now2 unl2
        (runPass conf glob cOk now unl fs0 c0).fs
        (runPass conf glob cOk now unl fs0 c0).sourceCache).aborted = none := by
  obtain ⟨ls1, c1, f1, hrf1, hrc1, heq1⟩ := runPass_ok_inv h1
  obtain ⟨hck1, hfc1, hcaches⟩ :=
    @runFiles_ok_spec conf cOk now fs0 (foundOf conf glob)
      ⟨[], [], c0, fs0, []⟩ ls1 (fun u _ => rfl) hsafe hrf1
  have hagree : ∀ u ∈ foundOf conf glob, getA f1 u = getA fs0 u := by
    intro u hu
    have ha : getA ls1.fs u = getA fs0 u := by
      have := @runFiles_fs_frame conf cOk now (foundOf conf glob)
        ⟨[], [], c0, fs0, []⟩ u (fun t _ => hsafe u hu t)
      rw [hrf1] at this
      simpa [lsOf] using this
    have hb := @reconcile_fs_frame conf unl (removedOf ls1)
      ls1.sourceCache ls1.fs u (fun t _ => hsafe u hu t)
    rw [hrc1] at hb
    simp only [prOf] at hb
    exact hb.trans ha
  have hcache1 : ∀ f ∈ foundOf conf glob, ∀ st : FStat, getA fs0 f = some st →
      st.isReg = true → getA c1 f = some st.mtime := by
    intro f hf st hst hreg
    have hmemck : f ∈ ls1.checked := by
      rw [hck1]
      exact ckFold_mem fs0 (foundOf conf glob) [] f st hf hst hreg
    have hfr := @reconcile_cache_frame conf unl (removedOf ls1)
      ls1.sourceCache ls1.fs f (not_mem_removedOf_of_checked hmemck)
    rw [hrc1] at hfr
    simp only [prOf] at hfr
    rw [hfr]
    exact (hcaches f hf st hst hreg).1
  have hall : ∀ f ∈ foundOf conf glob, ∀ st : FStat, getA f1 f = some st →
      st.isReg = true → getA c1 f = some st.mtime ∧ output_path conf f ≠ none := by
    intro f hf st hst hreg
    rw [hagree f hf] at hst
    exact ⟨hcache1 f hf st hst hreg, (hcaches f hf st hst hreg).2⟩
  have hrun2 := @runFiles_all_fresh conf cOk2 now2 (foundOf conf glob)
    ⟨[], [], c1, f1, []⟩ hall
  have hckcongr : ckFold f1 ([] : List FsPath) (foundOf conf glob) =
      ckFold fs0 [] (foundOf conf glob) :=
    ckFold_congr f1 fs0 (foundOf conf glob) [] hagree
  have hfccongr : fcFold conf f1 ([] : List (String × FsPath)) (foundOf conf glob) =
      fcFold conf fs0 [] (foundOf conf glob) :=
    fcFold_congr f1 fs0 (foundOf conf glob) [] hagree
  have hkeys : ∀ k ∈ c1.map Prod.fst, k ∈ ls1.checked := by
    intro k hk
    by_contra hnc
    have hks : (getA c1 k).isSome := getA_isSome_of_mem_keys hk
    rcases hcs : getA ls1.sourceCache k with _ | v
    · have := @reconcile_cache_none_mono conf unl (removedOf ls1)
        ls1.sourceCache ls1.fs k hcs
      rw [hrc1] at this
      simp only [prOf] at this
      rw [this] at hks
      cases hks
    · have hrm : k ∈ removedOf ls1 := mem_removedOf hcs hnc
      have := reconcile_cache_removed (removedOf ls1) ls1.sourceCache ls1.fs
        k hrm hrc1
      rw [this] at hks
      cases hks
  set ls2 : LoopState :=
    ⟨ckFold f1 [] (foundOf conf glob), fcFold conf f1 [] (foundOf conf glob),
      c1, f1, []⟩ with hls2
  have hrm2 : removedOf ls2 = [] := by
    rw [removedOf]
    refine List.filter_eq_nil_iff.mpr ?_
    intro k hk
    have : k ∈ ls2.checked := by
      rw [hls2]
      show k ∈ ckFold f1 [] (foundOf conf glob)
      rw [hckcongr, ← hck1]
      exact hkeys k (by simpa [hls2] using hk)
    simpa using this
  have hrc2 : reconcile conf unl2 (removedOf ls2) (ls2.sourceCache, ls2.fs) =
      .ok (c1, f1) := by
    rw [hrm2]
    exact reconcile_nil
  have heq2 := (runPass_eq_ok hrun2).trans (reconcilePass_eq_ok hrc2)
  have hfs1 : (runPass conf glob cOk now unl fs0 c0).fs = f1 := by rw [heq1]
  have hsc1 : (runPass conf glob cOk now unl fs0 c0).sourceCache = c1 := by
    rw [heq1]
  have hfcp : (runPass conf glob cOk now unl fs0 c0).filesCache =
      ls1.filesCache := by rw [heq1]
  rw [hfs1, hsc1, hfcp, heq2]
  refine ⟨rfl, ?_, rfl, rfl⟩
  show fcFold conf f1 [] (foundOf conf glob) = ls1.filesCache
  rw [hfccongr]
  exact (show ls1.filesCache = fcFold conf fs0 [] (foundOf conf glob)
    from hfc1).symm

/-- Witness for C4 at the concrete two-source scenario: the first pass
compiles both sources; the second pass compiles nothing and reproduces the
same files_cache, source cache and success. -/
theorem C4_idempotence_witness :
    (∀ u ∈ foundOf EX.conf1 EX.glob2, ∀ t, output_path EX.conf1 t ≠ some u) ∧
    (runPass EX.conf1 EX.glob2 EX.okAll 100 [] EX.fs2 []).aborted = none ∧
    ((runPass EX.conf1 EX.glob2 EX.okAll 200 []
        (runPass EX.conf1 EX.glob2 EX.okAll 100 [] EX.fs2 []).fs
        (runPass EX.conf1 EX.glob2 EX.okAll 100 [] EX.fs2 []).sourceCache).compiled
      = [] ∧
     (runPass EX.conf1 EX.glob2 EX.okAll 200 []
        (runPass EX.conf1 EX.glob2 EX.okAll 100 [] EX.fs2 []).fs
        (runPass EX.conf1 EX.glob2 EX.okAll 100 [] EX.fs2 []).sourceCache).filesCache
      = (runPass EX.conf1 EX.glob2 EX.okAll 100 [] EX.fs2 []).filesCache ∧
     (runPass EX.conf1 EX.glob2 EX.okAll 200 []
        (runPass EX.conf1 EX.glob2 EX.okAll 100 [] EX.fs2 []).fs
        (runPass EX.conf1 EX.glob2 EX.okAll 100 [] EX.fs2 []).sourceCache).sourceCache
      = (runPass EX.conf1 EX.glob2 EX.okAll 100 [] EX.fs2 []).sourceCache ∧
     (runPass EX.conf1 EX.glob2 EX.okAll 200 []
        (runPass EX.conf1 EX.glob2 EX.okAll 100 [] EX.fs2 []).fs
        (runPass EX.conf1 EX.glob2 EX.okAll 100 [] EX.fs2 []).sourceCache).aborted
      = none) := by
  have hsafe : ∀ u ∈ foundOf EX.conf1 EX.glob2, ∀ t,
      output_path EX.conf1 t ≠ some u := by
    intro u hu t h
    have hfd : foundOf EX.conf1 EX.glob2 = [EX.srcA, EX.srcB] := by decide
    rw [hfd] at hu
    have := output_path_prefix h
    have hus : u = EX.srcA ∨ u = EX.srcB := by simpa using hu
    rcases hus with rfl | rfl
    · exact absurd this (by decide)
    · exact absurd this (by decide)
  exact ⟨hsafe, by decide,
    C4_idempotence EX.conf1 EX.glob2 EX.okAll EX.okAll 100 200 [] [] EX.fs2 []
      hsafe (by decide)⟩

/-- C5 counterexample: with CSS_MAP = True, an orphaned source's output file
is unlinked and its cache entry removed, but its map file is left on disk —
the claim that the map file is also deleted is false on the code (the
reconcile loop at lines 165-171 unlinks only output_path). -/
theorem C5_counterexample :
    EX.confM.cssMap = true ∧
    (runPass EX.confM EX.globNone EX.okAll 100 [] EX.fsOrphan
        [(EX.srcA, 5)]).sourceCache = [] ∧
    getA (runPass EX.confM EX.globNone EX.okAll 100 [] EX.fsOrphan
        [(EX.srcA, 5)]).fs EX.outA = none ∧
    getA (runPass EX.confM EX.globNone EX.okAll 100 [] EX.fsOrphan
        [(EX.srcA, 5)]).fs EX.mapA = some ⟨100, true⟩ ∧
    (runPass EX.confM EX.globNone EX.okAll 100 [] EX.fsOrphan
        [(EX.srcA, 5)]).aborted = none := by
  decide

/-- C5 (amended): after a completed pass, every source present in the cache
but absent from the pass's checked set is removed from the cache and its
output file is unlinked from disk (when its unlink does not fail), but its
map file is NOT deleted even when maps were requested — it stays exactly as
it was, provided nothing maps to it.  Every checked source keeps a cache
entry, and unlink failures are swallowed: the resulting cache, files_cache
and success are identical for any set of failing unlinks. -/
theorem C5_orphan_collection (conf : Conf) (glob : String → List FsPath)
    (cOk : FsPath → Bool) (now : Int) (unl : List FsPath) (fs : FS)
    (c0 : List (FsPath × Int)) (r opr : FsPath) (v : Int)
    (habort : (runPass conf glob cOk now unl fs c0).aborted = none)
    (hkey : getA c0 r = some v)
    (hnotfound : r ∉ (runPass conf glob cOk now unl fs c0).checked)
    (hopr : output_path conf r = some opr)
    (hnofail : opr ∉ unl)
    (hmapw : ∀ t, (t ∈ foundOf conf glob ∨ (getA c0 t).isSome) →
      output_path conf t ≠ some (mapPathOf opr)) :
    getA (runPass conf glob cOk now unl fs c0).sourceCache r = none ∧
    getA (runPass conf glob cOk now unl fs c0).fs opr = none ∧
    getA (runPass conf glob cOk now unl fs c0).fs (mapPathOf opr) =
      getA fs (mapPathOf opr) ∧
    (∀ t ∈ (runPass conf glob cOk now unl fs c0).checked,
      (getA (runPass conf glob cOk now unl fs c0).sourceCache t).isSome) ∧
    (∀ unl2 : List FsPath,
      (runPass conf glob cOk now unl2 fs c0).sourceCache =
        (runPass conf glob cOk now unl fs c0).sourceCache ∧
      (runPass conf glob cOk now unl2 fs c0).filesCache =
        (runPass conf glob cOk now unl fs c0).filesCache ∧
      (runPass conf glob cOk now unl2 fs c0).aborted = none) := by
  obtain ⟨ls, c', fs', hrf, hrc, heq⟩ := runPass_ok_inv habort
  rw [heq] at hnotfound ⊢
  simp only at hnotfound ⊢
  have hlssome : (getA ls.sourceCache r).isSome := by
    have := @runFiles_cache_isSome_mono conf cOk now (foundOf conf glob)
      ⟨[], [], c0, fs, []⟩ r (by rw [hkey]; rfl)
    rw [hrf] at this
    simpa [lsOf] using this
  obtain ⟨w, hw⟩ := Option.isSome_iff_exists.mp hlssome
  have hrm : r ∈ removedOf ls := mem_removedOf hw hnotfound
  have hkeysub : ∀ t ∈ removedOf ls,
      t ∈ foundOf conf glob ∨ (getA c0 t).isSome := by
    intro t ht
    by_cases htf : t ∈ foundOf conf glob
    · exact Or.inl htf
    · right
      have hfr := @runFiles_cache_frame conf cOk now (foundOf conf glob)
        ⟨[], [], c0, fs, []⟩ t htf
      rw [hrf] at hfr
      simp only [lsOf] at hfr
      have := getA_isSome_of_mem_keys (List.mem_filter.mp ht).1
      rwa [hfr] at this
  refine ⟨?_, ?_, ?_, ?_, ?_⟩
  · exact reconcile_cache_removed (removedOf ls) ls.sourceCache ls.fs r hrm hrc
  · exact reconcile_fs_removed (removedOf ls) ls.sourceCache ls.fs r opr
      hrm hopr hnofail hrc
  · have h1 : getA ls.fs (mapPathOf opr) = getA fs (mapPathOf opr) := by
      have := @runFiles_fs_frame conf cOk now (foundOf conf glob)
        ⟨[], [], c0, fs, []⟩ (mapPathOf opr)
        (fun t ht => hmapw t (Or.inl ht))
      rw [hrf] at this
      simpa [lsOf] using this
    have h2 := @reconcile_fs_frame conf unl (removedOf ls)
      ls.sourceCache ls.fs (mapPathOf opr)
      (fun t ht => hmapw t (hkeysub t ht))
    rw [hrc] at h2
    simp only [prOf] at h2
    exact h2.trans h1
  · intro t htc
    have hck := @runFiles_checked_cache conf cOk now (foundOf conf glob)
      ⟨[], [], c0, fs, []⟩ ls hrf (by intro u hu; cases hu) t htc
    have hfr := @reconcile_cache_frame conf unl (removedOf ls)
      ls.sourceCache ls.fs t (not_mem_removedOf_of_checked htc)
    rw [hrc] at hfr
    simp only [prOf] at hfr
    rwa [hfr]
  · intro unl2
    obtain ⟨fs2, hrc2⟩ := reconcile_cache_indep unl2 (removedOf ls)
      ls.sourceCache ls.fs ls.fs hrc
    have heq2 := (runPass_eq_ok hrf).trans (reconcilePass_eq_ok hrc2)
    rw [heq2]
    exact ⟨rfl, rfl, rfl⟩

/-- Witness for C5: source b is gone from the found set while its cache
entry, output and map file exist; the pass removes the cache entry, unlinks
o/b.css, leaves o/b.map untouched, keeps source a's entry, and behaves the
same for any unlink-failure set. -/
theorem C5_orphan_collection_witness :
    (runPass EX.confM EX.glob1 EX.okAll 100 [] EX.fs5
        [(EX.srcA, 4), (EX.srcB, 7)]).aborted = none ∧
    getA [(EX.srcA, (4 : Int)), (EX.srcB, 7)] EX.srcB = some 7 ∧
    EX.srcB ∉ (runPass EX.confM EX.glob1 EX.okAll 100 [] EX.fs5
        [(EX.srcA, 4), (EX.srcB, 7)]).checked ∧
    (getA (runPass EX.confM EX.glob1 EX.okAll 100 [] EX.fs5
        [(EX.srcA, 4), (EX.srcB, 7)]).sourceCache EX.srcB = none ∧
     getA (runPass EX.confM EX.glob1 EX.okAll 100 [] EX.fs5
        [(EX.srcA, 4), (EX.srcB, 7)]).fs EX.outB = none ∧
     getA (runPass EX.confM EX.glob1 EX.okAll 100 [] EX.fs5
        [(EX.srcA, 4), (EX.srcB, 7)]).fs (mapPathOf EX.outB) =
       getA EX.fs5 (mapPathOf EX.outB) ∧
     (∀ t ∈ (runPass EX.confM EX.glob1 EX.okAll 100 [] EX.fs5
        [(EX.srcA, 4), (EX.srcB, 7)]).checked,
       (getA (runPass EX.confM EX.glob1 EX.okAll 100 [] EX.fs5
        [(EX.srcA, 4), (EX.srcB, 7)]).sourceCache t).isSome) ∧
     (∀ unl2 : List FsPath,
       (runPass EX.confM EX.glob1 EX.okAll 100 unl2 EX.fs5
          [(EX.srcA, 4), (EX.srcB, 7)]).sourceCache =
         (runPass EX.confM EX.glob1 EX.okAll 100 [] EX.fs5
          [(EX.srcA, 4), (EX.srcB, 7)]).sourceCache ∧
       (runPass EX.confM EX.glob1 EX.okAll 100 unl2 EX.fs5
          [(EX.srcA, 4), (EX.srcB, 7)]).filesCache =
         (runPass EX.confM EX.glob1 EX.okAll 100 [] EX.fs5
          [(EX.srcA, 4), (EX.srcB, 7)]).filesCache ∧
       (runPass EX.confM EX.glob1 EX.okAll 100 unl2 EX.fs5
          [(EX.srcA, 4), (EX.srcB, 7)]).aborted = none)) := by
  refine ⟨by decide, by decide, by decide, ?_⟩
  refine C5_orphan_collection EX.confM EX.glob1 EX.okAll 100 [] EX.fs5
    [(EX.srcA, 4), (EX.srcB, 7)] EX.srcB EX.outB 7
    (by decide) (by decide) (by decide) (by decide) (by decide) ?_
  intro t ht h
  have hts : t = EX.srcA ∨ t = EX.srcB := by
    rcases ht with ht | ht
    · have hfd : foundOf EX.confM EX.glob1 = [EX.srcA] := by decide
      rw [hfd] at ht
      exact Or.inl (by simpa using ht)
    · by_cases h1 : EX.srcA = t
      · exact Or.inl h1.symm
      · by_cases h2 : EX.srcB = t
        · exact Or.inr h2.symm
        · exfalso
          rw [getA, if_neg h1, getA, if_neg h2] at ht
          simp [getA] at ht
  rcases hts with rfl | rfl
  · exact absurd h (by decide)
  · exact absurd h (by decide)

/-- C6: after a completed pass, the ServedIndex (files_cache, rebuilt from
an empty dictionary at the start of every pass) has as key set exactly the
served-relative keys of the outputs of the sources checked by this pass's
scan — including sources skipped as fresh — and the source cache's key set
is a subset of that checked set. -/
theorem C6_served_index_invariant (conf : Conf) (glob : String → List FsPath)
    (cOk : FsPath → Bool) (now : Int) (unl : List FsPath) (fs : FS)
    (c0 : List (FsPath × Int))
    (habort : (runPass conf glob cOk now unl fs c0).aborted = none) :
    (∀ k, (getA (runPass conf glob cOk now unl fs c0).filesCache k).isSome ↔
      ∃ f ∈ (runPass conf glob cOk now unl fs c0).checked, ∃ op,
        output_path conf f = some op ∧ servedKey conf op = k) ∧
    (∀ t, (getA (runPass conf glob cOk now unl fs c0).sourceCache t).isSome →
      t ∈ (runPass conf glob cOk now unl fs c0).checked) := by
  obtain ⟨ls, c', fs', hrf, hrc, heq⟩ := runPass_ok_inv habort
  rw [heq]
  simp only
  constructor
  · refine @runFiles_filesCache_iff conf cOk now (foundOf conf glob)
      ⟨[], [], c0, fs, []⟩ ls hrf ?_
    intro k
    constructor
    · intro h
      simp [getA] at h
    · rintro ⟨f, hf, _⟩
      cases hf
  · intro t hsome
    by_contra hnc
    rcases hcs : getA ls.sourceCache t with _ | v
    · have := @reconcile_cache_none_mono conf unl (removedOf ls)
        ls.sourceCache ls.fs t hcs
      rw [hrc] at this
      simp only [prOf] at this
      rw [this] at hsome
      cases hsome
    · have hrm : t ∈ removedOf ls := mem_removedOf hcs hnc
      have := reconcile_cache_removed (removedOf ls) ls.sourceCache ls.fs
        t hrm hrc
      rw [this] at hsome
      cases hsome

/-- Witness for C6 at the concrete two-source scenario: both served keys are
present and correspond to checked sources, and the cache keys are checked. -/
theorem C6_served_index_invariant_witness :
    (runPass EX.conf1 EX.glob2 EX.okAll 100 [] EX.fs2 []).aborted = none ∧
    ((∀ k, (getA (runPass EX.conf1 EX.glob2 EX.okAll 100 [] EX.fs2
        []).filesCache k).isSome ↔
      ∃ f ∈ (runPass EX.conf1 EX.glob2 EX.okAll 100 [] EX.fs2 []).checked,
        ∃ op, output_path EX.conf1 f = some op ∧ servedKey EX.conf1 op = k) ∧
     (∀ t, (getA (runPass EX.conf1 EX.glob2 EX.okAll 100 [] EX.fs2
        []).sourceCache t).isSome →
       t ∈ (runPass EX.conf1 EX.glob2 EX.okAll 100 [] EX.fs2 []).checked)) :=
  ⟨by decide,
   C6_served_index_invariant EX.conf1 EX.glob2 EX.okAll 100 [] EX.fs2 []
     (by decide)⟩

/-- C9 counterexample: with the output directory inside STATICFILES_DIRS and
CSS_SERVE_STATIC absent, find returns the not-found result even though the
requested path is a key of the ServedIndex after the pass — the lookup is
additionally gated on serve_static, which the claim omits. -/
theorem C9_counterexample :
    findRetOf (Finder.find (mkFinder EX.stGate true) EX.glob2 EX.okAll 100 []
      true EX.fs2 "a.css" true) = some (.many []) ∧
    (okOf (Finder.find (mkFinder EX.stGate true) EX.glob2 EX.okAll 100 []
      true EX.fs2 "a.css" true)).map
        (fun r => getA r.2.1.filesCache "a.css") = some (some EX.outA) := by
  decide

/-- C9 (amended): find first runs a full compile_scss pass, then consults
the serve_static gate and the ServedIndex: when serving is enabled it
returns the output identity for a present key (a singleton list for
all=True, the bare path for all=False) and the empty list for an absent
key; when serving is disabled it returns the empty list regardless of the
index. -/
theorem C9_find_spec (f : Finder) (glob : String → List FsPath)
    (cOk : FsPath → Bool) (now : Int) (unl : List FsPath) (appsReady : Bool)
    (fs : FS) (path : String) (all : Bool)
    (hab : (runPass f.conf glob cOk now unl fs f.sourceCache).aborted = none) :
    ((f.serveStaticNow appsReady = false ∨
      getA (runPass f.conf glob cOk now unl fs f.sourceCache).filesCache path
        = none) →
      findRetOf (Finder.find f glob cOk now unl appsReady fs path all) =
        some (.many [])) ∧
    (∀ op, f.serveStaticNow appsReady = true →
      getA (runPass f.conf glob cOk now unl fs f.sourceCache).filesCache path
        = some op →
      findRetOf (Finder.find f glob cOk now unl appsReady fs path all) =
        some (if all then .many [posix op] else .one (posix op))) := by
  constructor
  · intro hcase
    rcases hcase with hss | hget
    · rw [find_gate_off hab hss]
      rfl
    · cases hss : f.serveStaticNow appsReady with
      | false =>
        rw [find_gate_off hab hss]
        rfl
      | true =>
        rw [find_gate_miss hab hss hget]
        rfl
  · intro op hss hget
    rw [find_gate_hit hab hss hget]
    rfl

/-- Witness for C9: with serving enabled, find returns o/a.css for the key
a.css (both all modes via the singleton list case) and the empty list for an
absent key. -/
theorem C9_find_spec_witness :
    (runPass (mkFinder EX.stFree true).conf EX.glob2 EX.okAll 100 [] EX.fs2
      (mkFinder EX.stFree true).sourceCache).aborted = none ∧
    (mkFinder EX.stFree true).serveStaticNow true = true ∧
    findRetOf (Finder.find (mkFinder EX.stFree true) EX.glob2 EX.okAll 100 []
      true EX.fs2 "a.css" true) = some (.many [posix EX.outA]) ∧
    findRetOf (Finder.find (mkFinder EX.stFree true) EX.glob2 EX.okAll 100 []
      true EX.fs2 "missing.css" true) = some (.many []) := by
  refine ⟨by decide, by decide, ?_, ?_⟩
  · have h := (C9_find_spec (mkFinder EX.stFree true) EX.glob2 EX.okAll 100 []
      true EX.fs2 "a.css" true (by decide)).2 EX.outA (by decide) (by decide)
    rw [h]
    rfl
  · exact (C9_find_spec (mkFinder EX.stFree true) EX.glob2 EX.okAll 100 []
      true EX.fs2 "missing.css" true (by decide)).1 (Or.inr (by decide))

/-- C10: when the output directory lies inside a configured static directory
(STATICFILES_DIRS, or an app static directory once apps are ready) and
CSS_SERVE_STATIC is absent or False, find returns the empty list and list
yields nothing for every query — yet both calls still run the full build
pass: the finder state they return carries the pass's source cache and the
pass's filesystem (outputs written, caches updated). -/
theorem C10_serving_gate (st : Settings) (initReady appsReady : Bool)
    (glob : String → List FsPath) (cOk : FsPath → Bool) (now : Int)
    (unl : List FsPath) (fs : FS) (path : String) (all : Bool)
    (hserve : st.cssServeStatic = none ∨ st.cssServeStatic = some false)
    (hin : st.staticfilesDirs.any
        (fun d => pathIsParent (st.cssCompileDir.getD st.scssRoot) d) = true ∨
      (appsReady = true ∧ st.appStaticDirs.any
        (fun d => pathIsParent (st.cssCompileDir.getD st.scssRoot) d) = true))
    (hab : (runPass (mkFinder st initReady).conf glob cOk now unl fs
      (mkFinder st initReady).sourceCache).aborted = none) :
    findRetOf (Finder.find (mkFinder st initReady) glob cOk now unl appsReady
      fs path all) = some (.many []) ∧
    (okOf (Finder.find (mkFinder st initReady) glob cOk now unl appsReady
      fs path all)).map (fun r => r.2.1.sourceCache) =
      some (runPass (mkFinder st initReady).conf glob cOk now unl fs
        (mkFinder st initReady).sourceCache).sourceCache ∧
    (okOf (Finder.find (mkFinder st initReady) glob cOk now unl appsReady
      fs path all)).map (fun r => r.2.2) =
      some (runPass (mkFinder st initReady).conf glob cOk now unl fs
        (mkFinder st initReady).sourceCache).fs ∧
    (okOf (Finder.listCss (mkFinder st initReady) glob cOk now unl appsReady
      fs)).map (fun r => r.1) = some [] ∧
    (okOf (Finder.listCss (mkFinder st initReady) glob cOk now unl appsReady
      fs)).map (fun r => r.2.2) =
      some (runPass (mkFinder st initReady).conf glob cOk now unl fs
        (mkFinder st initReady).sourceCache).fs := by
  have hss := serveStaticNow_false_of_gate st initReady appsReady hserve hin
  rw [find_gate_off hab hss, listCss_eq hab, hss]
  exact ⟨rfl, rfl, rfl, rfl, rfl⟩

/-- Witness for C10: output directory inside an app's static directory, apps
not ready at construction but ready at query time, CSS_SERVE_STATIC absent:
find and list serve nothing while the pass compiled both sources. -/
theorem C10_serving_gate_witness :
    ((mkFinder EX.stApp false).sourceCache = [] ∧
     (runPass (mkFinder EX.stApp false).conf EX.glob2 EX.okAll 100 [] EX.fs2
       (mkFinder EX.stApp false).sourceCache).compiled =
         [EX.srcA, EX.srcB]) ∧
    (findRetOf (Finder.find (mkFinder EX.stApp false) EX.glob2 EX.okAll 100 []
      true EX.fs2 "a.css" true) = some (.many []) ∧
     (okOf (Finder.find (mkFinder EX.stApp false) EX.glob2 EX.okAll 100 []
      true EX.fs2 "a.css" true)).map (fun r => r.2.1.sourceCache) =
       some (runPass (mkFinder EX.stApp false).conf EX.glob2 EX.okAll 100 []
         EX.fs2 (mkFinder EX.stApp false).sourceCache).sourceCache ∧
     (okOf (Finder.find (mkFinder EX.stApp false) EX.glob2 EX.okAll 100 []
      true EX.fs2 "a.css" true)).map (fun r => r.2.2) =
       some (runPass (mkFinder EX.stApp false).conf EX.glob2 EX.okAll 100 []
         EX.fs2 (mkFinder EX.stApp false).sourceCache).fs ∧
     (okOf (Finder.listCss (mkFinder EX.stApp false) EX.glob2 EX.okAll 100 []
      true EX.fs2)).map (fun r => r.1) = some [] ∧
     (okOf (Finder.listCss (mkFinder EX.stApp false) EX.glob2 EX.okAll 100 []
      true EX.fs2)).map (fun r => r.2.2) =
       some (runPass (mkFinder EX.stApp false).conf EX.glob2 EX.okAll 100 []
         EX.fs2 (mkFinder EX.stApp false).sourceCache).fs) :=
  ⟨by decide,
   C10_serving_gate EX.stApp false true EX.glob2 EX.okAll 100 [] EX.fs2
     "a.css" true (Or.inl rfl) (Or.inr ⟨rfl, by decide⟩) (by decide)⟩

end SassFinder
